import Mathlib

set_option linter.unusedSectionVars false

/-!
# BSS-UDF: unmet-demand function of a bike-share station

A shallow embedding of `station.cpp`, `udf_calculator.cpp` and the parts of `main.cpp`
that use them, followed by theorems about the embedded functions.

Conventions of the embedding

* `double` is an ordered field `α` with a floor function; the definitions are computable
  and run on `ℚ`, the theorems about the exact matrix exponential are stated on `ℝ`.
  Rounding error, infinities and NaN are outside the model.
* `int` is `Int` (no wrap-around: the products and sums of the source stay far below
  `2^31` on the inputs the theorems speak about; a `double` too large for `int` has no
  defined conversion in C++ and is converted here by plain truncation).
* `Eigen::MatrixXd` of size `capacity + 1` is `Matrix (Fin n) (Fin n) α` with
  `n = (capacity + 1).toNat`.
* `Eigen`'s `MatrixBase::exp()` is a library routine; it is a parameter `mexp` of every
  function that reaches it.
* `std::map` is a lookup function, `operator[]=` is `Function.update`.
* a member function that changes the calculator returns the new calculator next to its
  result.
-/

namespace BSSUDF

/-! ## Numbers -/

section Numbers

variable {α : Type} [LinearOrderedField α] [FloorRing α]

/-- The conversion `static_cast<int>(x)` of a `double`: truncation toward zero. -/
def static_cast_int (x : α) : Int :=
  if 0 ≤ x then ⌊x⌋ else ⌈x⌉

/-- The function `std::round`: the nearest integer, halfway cases away from zero. -/
def std_round (x : α) : α :=
  if 0 ≤ x then ((⌊x + 1 / 2⌋ : Int) : α) else ((⌈x - 1 / 2⌉ : Int) : α)

/-- The constant `std::numeric_limits<double>::max()`, that is `(2^53 - 1) * 2^971`. -/
def DBL_MAX : α := (2 ^ 53 - 1) * 2 ^ 971

end Numbers

/-! ## station.h, station.cpp -/

/-- The class `Station`; the two rate tables are `std::vector<double>`. -/
structure Station (α : Type) where
  id : String
  name : String
  capacity : Int
  rentalRates : List α
  returnRates : List α

namespace Station

variable {α : Type}

/-- The constant `Station::TIME_SLOTS`. -/
def TIME_SLOTS : Int := 48

/-- The constructor `Station::Station`: both tables are resized to `TIME_SLOTS` zeros. -/
def new [Zero α] (id name : String) (capacity : Int) : Station α :=
  { id := id, name := name, capacity := capacity,
    rentalRates := List.replicate TIME_SLOTS.toNat 0,
    returnRates := List.replicate TIME_SLOTS.toNat 0 }

/-- The setter `Station::setRentalRate`. -/
def setRentalRate (s : Station α) (timeSlot : Int) (rate : α) : Station α :=
  if 0 ≤ timeSlot ∧ timeSlot < TIME_SLOTS then
    { s with rentalRates := s.rentalRates.set timeSlot.toNat rate }
  else s

/-- The setter `Station::setReturnRate`. -/
def setReturnRate (s : Station α) (timeSlot : Int) (rate : α) : Station α :=
  if 0 ≤ timeSlot ∧ timeSlot < TIME_SLOTS then
    { s with returnRates := s.returnRates.set timeSlot.toNat rate }
  else s

/-- The getter `Station::getId`. -/
def getId (s : Station α) : String := s.id

/-- The getter `Station::getName`. -/
def getName (s : Station α) : String := s.name

/-- The getter `Station::getCapacity`. -/
def getCapacity (s : Station α) : Int := s.capacity

/-- The getter `Station::getRentalRate`: `0.0` outside `[0, TIME_SLOTS)`. -/
def getRentalRate [Zero α] (s : Station α) (timeSlot : Int) : α :=
  if 0 ≤ timeSlot ∧ timeSlot < TIME_SLOTS then s.rentalRates.getD timeSlot.toNat 0 else 0

/-- The getter `Station::getReturnRate`: `0.0` outside `[0, TIME_SLOTS)`. -/
def getReturnRate [Zero α] (s : Station α) (timeSlot : Int) : α :=
  if 0 ≤ timeSlot ∧ timeSlot < TIME_SLOTS then s.returnRates.getD timeSlot.toNat 0 else 0

end Station

/-! ## udf_calculator.h, udf_calculator.cpp -/

/-- An `Eigen::MatrixXd` with `capacity + 1` rows and columns. -/
abbrev MatrixXd (α : Type) (capacity : Int) : Type :=
  Matrix (Fin (capacity + 1).toNat) (Fin (capacity + 1).toNat) α

/-- A function on square matrices of every size, the shape of `MatrixBase::exp()`. -/
abbrev MatrixFunction (α : Type) : Type :=
  (n : ℕ) → Matrix (Fin n) (Fin n) α → Matrix (Fin n) (Fin n) α

/-- The key `std::tuple<double, double, int, double>` of the transition-matrix cache. -/
structure CacheKey (α : Type) where
  rentalRate : α
  returnRate : α
  capacity : Int
  deltaTime : α
deriving DecidableEq

/-- The class `UDFCalculator`. The matrix the map holds under a key is the one
`calculateTransitionMatrix` stored there, of size `capacity + 1` for the key's capacity. -/
structure UDFCalculator (α : Type) where
  transitionMatrixCache : (key : CacheKey α) → Option (MatrixXd α key.capacity)
  penaltyRenter : α
  penaltyReturner : α

section Calculator

variable {α : Type} [LinearOrderedField α] [FloorRing α]

/-- The constructor `UDFCalculator::UDFCalculator(penaltyRenter, penaltyReturner)`:
the cache starts empty. -/
def UDFCalculator.new (penaltyRenter penaltyReturner : α) : UDFCalculator α :=
  { transitionMatrixCache := fun _ => none,
    penaltyRenter := penaltyRenter,
    penaltyReturner := penaltyReturner }

/-- The constructor with its default arguments `1.0, 1.0`. -/
def UDFCalculator.default : UDFCalculator α := UDFCalculator.new 1 1

/-- The lambda `quantize` of `calculateTransitionMatrix`: two decimals. -/
def quantize (x : α) : α := std_round (x * 100) / 100

/-- The key that `calculateTransitionMatrix` builds from its arguments. -/
def cacheKey (rentalRate returnRate : α) (capacity : Int) (deltaTime : α) : CacheKey α :=
  { rentalRate := quantize rentalRate, returnRate := quantize returnRate,
    capacity := capacity, deltaTime := quantize deltaTime }

/-- The assignment `R(i, j) = v`. -/
def setCoeff {capacity : Int} (R : MatrixXd α capacity) (i j : Int) (v : α) :
    MatrixXd α capacity :=
  fun a b => if (a : Int) = i ∧ (b : Int) = j then v else R a b

/-- One pass of the loop that fills the rate matrix, for row `i`. -/
def fillRow (rentalRate returnRate : α) (capacity : Int) (R : MatrixXd α capacity)
    (i : Int) : MatrixXd α capacity :=
  let R := setCoeff R i i
    (-((if i > 0 then rentalRate else 0) + (if i < capacity then returnRate else 0)))
  let R := if i > 0 then setCoeff R i (i - 1) rentalRate else R
  let R := if i < capacity then setCoeff R i (i + 1) returnRate else R
  R

/-- The rate matrix `R` of `calculateTransitionMatrix`: `Zero(size, size)` filled by the
loop `for (int i = 0; i <= capacity; i++)`. -/
def rateMatrix (rentalRate returnRate : α) (capacity : Int) : MatrixXd α capacity :=
  (List.range (capacity + 1).toNat).foldl
    (fun R (i : Nat) => fillRow rentalRate returnRate capacity R (i : Int)) 0

/-- The member function `UDFCalculator::calculateTransitionMatrix`. -/
def calculateTransitionMatrix (mexp : MatrixFunction α) (calculator : UDFCalculator α)
    (rentalRate returnRate : α) (capacity : Int) (deltaTime : α) :
    MatrixXd α capacity × UDFCalculator α :=
  let key := cacheKey rentalRate returnRate capacity deltaTime
  match (calculator.transitionMatrixCache key : Option (MatrixXd α capacity)) with
  | some cached => (cached, calculator)
  | none =>
    let R := rateMatrix rentalRate returnRate capacity
    let result : MatrixXd α capacity := mexp _ (deltaTime • R)
    (result, { calculator with
      transitionMatrixCache := Function.update calculator.transitionMatrixCache key (some result) })

/-- The member function `UDFCalculator::matrixExponential`, `(I + R/n)^n`; the source
keeps it but calls `MatrixBase::exp()` instead. -/
def matrixExponential {n : ℕ} (R : Matrix (Fin n) (Fin n) α) (iterations : Int) :
    Matrix (Fin n) (Fin n) α :=
  (List.range iterations.toNat).foldl
    (fun term _ => term * (1 + ((iterations : α))⁻¹ • R)) 1

/-- The variables that the loop of `calculateUDF` updates. -/
structure UDFLoopState (α : Type) (capacity : Int) where
  transitionProb : MatrixXd α capacity
  udf : α
  calculator : UDFCalculator α

/-- The time slot of a step: `(step * static_cast<int>(discretizationLevel)) / 30`,
then `% Station::TIME_SLOTS`, both in `int` arithmetic. -/
def timeSlotOf (step : Int) (discretizationLevel : α) : Int :=
  Int.tmod (Int.tdiv (step * static_cast_int discretizationLevel) 30) Station.TIME_SLOTS

/-- The body of the loop of `calculateUDF` at one `step`; `row`, `first` and `last` are
the indices `initialInventory`, `0` and `capacity`. -/
def udfStep (mexp : MatrixFunction α) (station : Station α) (discretizationLevel : α)
    {capacity : Int} (row first last : Fin (capacity + 1).toNat)
    (s : UDFLoopState α capacity) (step : Int) : UDFLoopState α capacity :=
  let deltaTime := discretizationLevel
  let timeSlot := timeSlotOf step discretizationLevel
  let rentalRate := station.getRentalRate timeSlot
  let returnRate := station.getReturnRate timeSlot
  let r := calculateTransitionMatrix mexp s.calculator rentalRate returnRate capacity
    (((timeSlot + 1 : Int) : α) * deltaTime)
  let P := r.1
  let calculator := r.2
  let transitionProb := s.transitionProb * P
  let emptyProb := transitionProb row first
  let fullProb := transitionProb row last
  let udf := s.udf + (emptyProb * rentalRate * calculator.penaltyRenter
    + fullProb * returnRate * calculator.penaltyReturner) * deltaTime
  { transitionProb := transitionProb, udf := udf, calculator := calculator }

/-- The number of steps of `calculateUDF`:
`static_cast<int>((24.0 * 60.0) / discretizationLevel)`. -/
def timeSteps (discretizationLevel : α) : Int :=
  static_cast_int ((24 * 60) / discretizationLevel)

/-- The loop `for (int step = 0; step < timeSteps; step++)` of `calculateUDF`. -/
def udfLoop (mexp : MatrixFunction α) (station : Station α) (discretizationLevel : α)
    {capacity : Int} (row first last : Fin (capacity + 1).toNat)
    (init : UDFLoopState α capacity) : UDFLoopState α capacity :=
  (List.range (timeSteps discretizationLevel).toNat).foldl
    (fun s (step : Nat) =>
      udfStep mexp station discretizationLevel row first last s (step : Int))
    init

/-- The member function `UDFCalculator::calculateUDF`. -/
def calculateUDF (mexp : MatrixFunction α) (calculator : UDFCalculator α) (station : Station α)
    (initialInventory : Int) (discretizationLevel : α) : α × UDFCalculator α :=
  if h : initialInventory < 0 ∨ initialInventory > station.getCapacity then
    (DBL_MAX, calculator)
  else
    let capacity := station.getCapacity
    have hc : 0 ≤ capacity ∧ 0 ≤ initialInventory ∧ initialInventory ≤ capacity := by
      simp only [not_or, not_lt, gt_iff_lt] at h
      exact ⟨le_trans h.1 h.2, h.1, h.2⟩
    let s := udfLoop mexp station discretizationLevel
      (⟨initialInventory.toNat, by omega⟩ : Fin (capacity + 1).toNat)
      ⟨0, by omega⟩ ⟨capacity.toNat, by omega⟩
      { transitionProb := 1, udf := 0, calculator := calculator }
    (s.udf, s.calculator)

/-- The member function `UDFCalculator::calculateUDFForAllInventories`. -/
def calculateUDFForAllInventories (mexp : MatrixFunction α) (calculator : UDFCalculator α)
    (station : Station α) (discretizationLevel : α) : List α × UDFCalculator α :=
  let capacity := station.getCapacity
  (List.range (capacity + 1).toNat).foldl
    (fun acc (i : Nat) =>
      let r := calculateUDF mexp acc.2 station (i : Int) discretizationLevel
      (acc.1 ++ [r.1], r.2))
    ([], calculator)

/-- The arguments of one call of `calculateTransitionMatrix`. -/
structure TransitionCall (α : Type) where
  rentalRate : α
  returnRate : α
  capacity : Int
  deltaTime : α

/-- The calculator after a sequence of calls of `calculateTransitionMatrix`, made one
after the other on the same calculator. -/
def afterCalls (mexp : MatrixFunction α) (calculator : UDFCalculator α)
    (calls : List (TransitionCall α)) : UDFCalculator α :=
  calls.foldl
    (fun c a =>
      (calculateTransitionMatrix mexp c a.rentalRate a.returnRate a.capacity a.deltaTime).2)
    calculator

/-- The calculator as the loop of `calculateUDFForAllInventories` has left it after its
first `i` calls of `calculateUDF`, for the inventories `0, ..., i - 1`. -/
def calculatorAfter (mexp : MatrixFunction α) (calculator : UDFCalculator α)
    (station : Station α) (discretizationLevel : α) : Nat → UDFCalculator α
  | 0 => calculator
  | i + 1 =>
    (calculateUDF mexp (calculatorAfter mexp calculator station discretizationLevel i)
      station (i : Int) discretizationLevel).2

/-- The scan of `std::min_element` after its first element: `smallest` is the position
of the least value `v` seen so far, `first` the position of the head of the list. -/
def min_element_scan : List α → Nat → α → Nat → Nat
  | [], smallest, _, _ => smallest
  | x :: xs, smallest, v, first =>
    if x < v then min_element_scan xs first x (first + 1)
    else min_element_scan xs smallest v (first + 1)

/-- The algorithm `std::min_element(begin, end)`, as the distance of its result from
`begin`; on an empty range it returns `end`, at distance `0`. -/
def min_element : List α → Nat
  | [] => 0
  | x :: xs => min_element_scan xs 0 x 1

/-- The member function `UDFCalculator::findOptimalInventory`. -/
def findOptimalInventory (udfValues : List α) : Int :=
  (min_element udfValues : Int)

/-- The member function `UDFCalculator::calculateMarginalUDF`; a read `udfValues[i]`
outside the vector gives `none`. -/
def calculateMarginalUDF (mexp : MatrixFunction α) (calculator : UDFCalculator α)
    (station : Station α) (discretizationLevel : α) : Option (List α) × UDFCalculator α :=
  let r := calculateUDFForAllInventories mexp calculator station discretizationLevel
  let udfValues := r.1
  let marginalValues := (List.range station.getCapacity.toNat).foldl
    (fun acc (k : Nat) =>
      let i := k + 1
      acc.bind fun m =>
        (udfValues.get? i).bind fun a =>
          (udfValues.get? (i - 1)).map fun b => m ++ [a - b])
    (some [])
  (marginalValues, r.2)

/-! ### The loss integral as the specification words it

The definitions below follow the specification, not the source; `specUDF` is compared
with `calculateUDF`. -/

/-- The coefficient `M[i][j]` of the specification, for indices given as integers; `0`
outside the matrix. -/
def entry {capacity : Int} (M : MatrixXd α capacity) (i j : Int) : α :=
  if h : (0 ≤ i ∧ i ≤ capacity) ∧ (0 ≤ j ∧ j ≤ capacity) then
    M ⟨i.toNat, by omega⟩ ⟨j.toNat, by omega⟩
  else 0

/-- The generator matrix of the specification: out-flow to state `i - 1` at the rental
rate (none at state `0`), out-flow to state `i + 1` at the return rate (none at state
`C`), the negative sum of the two out-flows on the diagonal, `0` elsewhere. -/
def specRate (r q : α) (capacity : Int) (i j : Nat) : α :=
  if j = i then -((if 0 < i then r else 0) + (if (i : Int) < capacity then q else 0))
  else if j + 1 = i then r
  else if j = i + 1 ∧ (i : Int) < capacity then q
  else 0

/-- The generator matrix `R(rentalRate, returnRate, C)` of the specification, of size
`C + 1`. -/
def specRateMatrix (r q : α) (capacity : Int) : MatrixXd α capacity :=
  fun i j => specRate r q capacity i j

/-- The slot of step `s` in the specification: `⌊(s · d) / 30⌋ mod 48`. -/
def specSlot (s : Nat) (d : α) : Int :=
  ⌊((s : α) * d) / 30⌋ % 48

/-- The matrix `P_s` of the specification: the matrix function (the exponential) of
`R(rentalRate_s, returnRate_s, C) * ((slot_s + 1) * d)`, never taken from a cache. -/
def specStepMatrix (mexp : MatrixFunction α) (station : Station α) (capacity : Int)
    (d : α) (s : Nat) : MatrixXd α capacity :=
  mexp _ ((((specSlot s d + 1 : Int) : α) * d) •
    specRateMatrix (station.getRentalRate (specSlot s d))
      (station.getReturnRate (specSlot s d)) capacity)

/-- The product `P_0 * P_1 * ... * P_(k-1)` of the specification, from the left, starting
from the identity; `Π_s` is `specCumulative (s + 1)`. -/
def specCumulative (mexp : MatrixFunction α) (station : Station α) (capacity : Int)
    (d : α) : Nat → MatrixXd α capacity
  | 0 => 1
  | k + 1 => specCumulative mexp station capacity d k * specStepMatrix mexp station capacity d k

/-- The term of step `s` in the loss sum of the specification:
`(Π_s[I0][0] · rentalRate_s · penaltyRenter + Π_s[I0][C] · returnRate_s · penaltyReturner) · d`. -/
def specTerm (mexp : MatrixFunction α) (penaltyRenter penaltyReturner : α)
    (station : Station α) (initialInventory : Int) (d : α) (s : Nat) : α :=
  (entry (specCumulative mexp station station.getCapacity d (s + 1)) initialInventory 0
      * station.getRentalRate (specSlot s d) * penaltyRenter
    + entry (specCumulative mexp station station.getCapacity d (s + 1)) initialInventory
        station.getCapacity
      * station.getReturnRate (specSlot s d) * penaltyReturner) * d

/-- The loss of the specification for a step of `n` whole minutes: the sum of the terms
of the steps `s = 0, ..., 1440 / n - 1`. -/
def specUDF (mexp : MatrixFunction α) (penaltyRenter penaltyReturner : α)
    (station : Station α) (initialInventory : Int) (n : Nat) : α :=
  Finset.sum (Finset.range (1440 / n))
    (specTerm mexp penaltyRenter penaltyReturner station initialInventory (n : α))

/-! ### The loss integral with the cache disabled

`calculateUDFNoCache` is `calculateUDF` with every transition matrix recomputed from the
unquantized arguments; it is compared with `calculateUDF`. -/

/-- The body of the loop of `calculateUDF` with the cache disabled: the matrix `P` is the
matrix function (the exponential) of `R * deltaTime`, computed at every step. -/
def udfStepNoCache (mexp : MatrixFunction α) (penaltyRenter penaltyReturner : α)
    (station : Station α) (discretizationLevel : α)
    {capacity : Int} (row first last : Fin (capacity + 1).toNat)
    (s : MatrixXd α capacity × α) (step : Int) : MatrixXd α capacity × α :=
  let deltaTime := discretizationLevel
  let timeSlot := timeSlotOf step discretizationLevel
  let rentalRate := station.getRentalRate timeSlot
  let returnRate := station.getReturnRate timeSlot
  let P : MatrixXd α capacity :=
    mexp _ ((((timeSlot + 1 : Int) : α) * deltaTime) • rateMatrix rentalRate returnRate capacity)
  let transitionProb := s.1 * P
  let emptyProb := transitionProb row first
  let fullProb := transitionProb row last
  (transitionProb,
    s.2 + (emptyProb * rentalRate * penaltyRenter + fullProb * returnRate * penaltyReturner)
      * deltaTime)

/-- The function `calculateUDF` with the cache disabled. -/
def calculateUDFNoCache (mexp : MatrixFunction α) (penaltyRenter penaltyReturner : α)
    (station : Station α) (initialInventory : Int) (discretizationLevel : α) : α :=
  if h : initialInventory < 0 ∨ initialInventory > station.getCapacity then
    DBL_MAX
  else
    let capacity := station.getCapacity
    have hc : 0 ≤ capacity ∧ 0 ≤ initialInventory ∧ initialInventory ≤ capacity := by
      simp only [not_or, not_lt, gt_iff_lt] at h
      exact ⟨le_trans h.1 h.2, h.1, h.2⟩
    ((List.range (timeSteps discretizationLevel).toNat).foldl
      (fun s (step : Nat) =>
        udfStepNoCache mexp penaltyRenter penaltyReturner station discretizationLevel
          (⟨initialInventory.toNat, by omega⟩ : Fin (capacity + 1).toNat)
          ⟨0, by omega⟩ ⟨capacity.toNat, by omega⟩ s (step : Int))
      ((1 : MatrixXd α capacity), (0 : α))).2

/-- The calculator after a sequence of calls of `calculateUDF` for one station and one
discretization level, made one after the other on the same calculator. -/
def afterUDFCalls (mexp : MatrixFunction α) (calculator : UDFCalculator α)
    (station : Station α) (discretizationLevel : α) (inventories : List Int) :
    UDFCalculator α :=
  inventories.foldl
    (fun c i => (calculateUDF mexp c station i discretizationLevel).2) calculator

/-! ### Predicates used by the theorems -/

/-- Every matrix the cache holds under the key of a step of the loop of `calculateUDF` is
the matrix function of `R * deltaTime` for the unquantized rates and elapsed time of that
step. -/
def StepCacheSound (mexp : MatrixFunction α) (station : Station α) (capacity : Int) (d : α)
    (calculator : UDFCalculator α) : Prop :=
  ∀ (k : Nat) (M : MatrixXd α capacity),
    calculator.transitionMatrixCache
        (cacheKey (station.getRentalRate (timeSlotOf (k : Int) d))
          (station.getReturnRate (timeSlotOf (k : Int) d)) capacity
          (((timeSlotOf (k : Int) d + 1 : Int) : α) * d)) = some M →
    M = mexp _ ((((timeSlotOf (k : Int) d + 1 : Int) : α) * d) •
      rateMatrix (station.getRentalRate (timeSlotOf (k : Int) d))
        (station.getReturnRate (timeSlotOf (k : Int) d)) capacity)

/-- Two steps of the loop of `calculateUDF` with the same quantized elapsed time are in
the same slot. -/
def StepsSeparated (d : α) : Prop :=
  ∀ k k' : Nat,
    quantize (((timeSlotOf (k : Int) d + 1 : Int) : α) * d)
      = quantize (((timeSlotOf (k' : Int) d + 1 : Int) : α) * d) →
    timeSlotOf (k : Int) d = timeSlotOf (k' : Int) d

/-- Every matrix the cache holds under the key of a slot of the station is the matrix
function of `R * deltaTime` for the unquantized rates and elapsed time of that slot. -/
def CacheSound (mexp : MatrixFunction α) (station : Station α) (capacity : Int) (d : α)
    (calculator : UDFCalculator α) : Prop :=
  ∀ t : Int, 0 ≤ t → t < 48 → ∀ M : MatrixXd α capacity,
    calculator.transitionMatrixCache
        (cacheKey (station.getRentalRate t) (station.getReturnRate t) capacity
          (((t + 1 : Int) : α) * d)) = some M →
    M = mexp _ ((((t + 1 : Int) : α) * d) •
      rateMatrix (station.getRentalRate t) (station.getReturnRate t) capacity)

/-- Two different slots have different quantized elapsed times `(slot + 1) * d`. -/
def SlotsSeparated (d : α) : Prop :=
  ∀ t t' : Int, 0 ≤ t → t < 48 → 0 ≤ t' → t' < 48 →
    quantize (((t + 1 : Int) : α) * d) = quantize (((t' + 1 : Int) : α) * d) → t = t'

/-- The station of the end-to-end scenario of the specification: capacity `1`, rental
rate `2.0` in all 48 slots, return rate `0`. -/
def scenarioStation : Station α :=
  { id := "scenario", name := "scenario", capacity := 1,
    rentalRates := List.replicate 48 2, returnRates := List.replicate 48 0 }

end Calculator

/-! ## main.cpp

The station loop of `main` (the body of the `omp parallel for`, one station after the
other) and `writeCSVResults`. The directory `results/intermediate` is a map from path to
contents; `checkFile.good()` holds exactly for a path of the map; whether
`std::ofstream out(stationResultFile)` opens is given by `canOpen`; the text that `<<`
writes for a `double` is given by `render`. The computation of a station throws no
exception in this model, so the `catch` branch is not taken. -/

section Main

variable {α : Type} [LinearOrderedField α] [FloorRing α]

/-- The way one pass of the station loop ends: at `continue` after
"Skipping already processed station", at `continue` after "Failed to write to", or at its
last statement after "Processing station". -/
inductive Branch where
  | skipped
  | writeFailed
  | processed
deriving DecidableEq

/-- The checkpoint directory and the vectors `allUDFValues` and `optimalInventories` of
`main`. -/
structure BatchState (α : Type) where
  files : String → Option String
  allUDFValues : List (List α)
  optimalInventories : List Int

/-- The state before the station loop: both vectors resized to the number of stations,
with empty vectors and zeros. -/
def BatchState.init (files : String → Option String) (n : Nat) : BatchState α :=
  { files := files, allUDFValues := List.replicate n [], optimalInventories := List.replicate n 0 }

/-- The string `stationIdSanitized`: the identifier after
`std::replace(begin, end, '/', '_')`. -/
def stationIdSanitized (station : Station α) : String :=
  String.mk (station.getId.data.map (fun c => if c = '/' then '_' else c))

/-- The string `stationResultFile`. -/
def stationResultFile (station : Station α) : String :=
  "results/intermediate/" ++ stationIdSanitized station ++ ".csv"

/-- The text written to a checkpoint: the header and one line `i,udfValues[i]` for each
index. -/
def checkpointText (render : α → String) (udfValues : List α) : String :=
  ((List.range udfValues.length).zip udfValues).foldl
    (fun out iv => out ++ toString iv.1 ++ "," ++ render iv.2 ++ "\n") "inventory,udf\n"

/-- One pass of the station loop of `main`, for the station at index `i`, with a
calculator of its own. -/
def processStation (mexp : MatrixFunction α) (render : α → String) (canOpen : String → Bool)
    (discretizationLevel : α) (st : BatchState α) (i : Nat) (station : Station α) :
    BatchState α × Branch :=
  if (st.files (stationResultFile station)).isSome then
    (st, Branch.skipped)
  else
    let udfValues :=
      (calculateUDFForAllInventories mexp UDFCalculator.default station discretizationLevel).1
    let optimalInventory := findOptimalInventory udfValues
    if canOpen (stationResultFile station) = false then
      (st, Branch.writeFailed)
    else
      ({ files := Function.update st.files (stationResultFile station)
           (some (checkpointText render udfValues)),
         allUDFValues := st.allUDFValues.set i udfValues,
         optimalInventories := st.optimalInventories.set i optimalInventory },
       Branch.processed)

/-- The station loop of `main` from index `i` on, over the stations from that index; it
returns the final state and the branch each station took, in order. -/
def stationLoop (mexp : MatrixFunction α) (render : α → String) (canOpen : String → Bool)
    (discretizationLevel : α) : List (Station α) → Nat → BatchState α →
    BatchState α × List Branch
  | [], _, st => (st, [])
  | station :: rest, i, st =>
    let r := processStation mexp render canOpen discretizationLevel st i station
    let r2 := stationLoop mexp render canOpen discretizationLevel rest (i + 1) r.1
    (r2.1, r.2 :: r2.2)

/-- The element `v[i]` of a `std::vector` for an `int` index; `none` outside the
vector. -/
def vectorAt {β : Type} (v : List β) (i : Int) : Option β :=
  if 0 ≤ i then v.get? i.toNat else none

/-- One data row of the consolidated output. -/
structure CSVRow (α : Type) where
  stationId : String
  stationName : String
  capacity : Int
  optimalInventory : Int
  minUDF : α
  udf : List α

/-- The row that `writeCSVResults` writes for the station at index `s`; `none` when one of
its reads is outside a vector. -/
def writeCSVRow (stations : List (Station α)) (udfValues : List (List α))
    (optimalInventories : List Int) (s : Nat) : Option (CSVRow α) :=
  (stations.get? s).bind fun station =>
    (optimalInventories.get? s).bind fun optimalInventory =>
      (udfValues.get? s).bind fun values =>
        (vectorAt values optimalInventory).bind fun minUDF =>
          ((List.range (station.getCapacity + 1).toNat).foldl
            (fun acc (i : Nat) =>
              acc.bind fun row => (vectorAt values (i : Int)).map fun v => row ++ [v])
            (some [])).map fun udf =>
              { stationId := station.getId, stationName := station.getName,
                capacity := station.getCapacity, optimalInventory := optimalInventory,
                minUDF := minUDF, udf := udf }

/-- The data rows of `writeCSVResults`, once the output file is open; `none` when a read
is outside a vector. -/
def writeCSVResults (stations : List (Station α)) (udfValues : List (List α))
    (optimalInventories : List Int) : Option (List (CSVRow α)) :=
  (List.range stations.length).foldl
    (fun acc (s : Nat) =>
      acc.bind fun rows =>
        (writeCSVRow stations udfValues optimalInventories s).map fun row => rows ++ [row])
    (some [])

/-- The end of `main` for a loaded station list: the station loop on the resized vectors,
then `writeCSVResults` on what the loop left in them. -/
def mainResults (mexp : MatrixFunction α) (render : α → String) (canOpen : String → Bool)
    (discretizationLevel : α) (stations : List (Station α))
    (files : String → Option String) : Option (List (CSVRow α)) :=
  let r := stationLoop mexp render canOpen discretizationLevel stations 0
    (BatchState.init files stations.length)
  writeCSVResults stations r.1.allUDFValues r.1.optimalInventories

end Main

/-- Every matrix the cache holds has non-negative coefficients. -/
def NonnegCache (calculator : UDFCalculator ℝ) : Prop :=
  ∀ (k : CacheKey ℝ) (M : MatrixXd ℝ k.capacity),
    calculator.transitionMatrixCache k = some M → ∀ i j, 0 ≤ M i j

/-- Every row of every matrix the cache holds sums to one. -/
def RowStochasticCache (calculator : UDFCalculator ℝ) : Prop :=
  ∀ (k : CacheKey ℝ) (M : MatrixXd ℝ k.capacity),
    calculator.transitionMatrixCache k = some M →
    ∀ i, Finset.sum Finset.univ (fun j => M i j) = 1

/-! ## Theorems -/

section Optimizer

variable {α : Type} [LinearOrderedField α]

/-- The scan of `std::min_element` keeps its invariant: if `v` is the value at position
`smallest` of the part `pre` already seen, is a lower bound of `pre` and is strictly
below everything before `smallest`, the position returned has the same three properties
in the whole range `pre ++ xs`. -/
theorem min_element_scan_spec (xs : List α) :
    ∀ (pre : List α) (smallest : Nat) (v : α),
      pre[smallest]? = some v →
      (∀ (j : Nat) (x : α), pre[j]? = some x → v ≤ x) →
      (∀ (k : Nat) (x : α), k < smallest → pre[k]? = some x → v < x) →
      ∃ w, (pre ++ xs)[min_element_scan xs smallest v pre.length]? = some w ∧
        (∀ (j : Nat) (x : α), (pre ++ xs)[j]? = some x → w ≤ x) ∧
        (∀ (k : Nat) (x : α), k < min_element_scan xs smallest v pre.length →
          (pre ++ xs)[k]? = some x → w < x) := by
  induction xs with
  | nil =>
    intro pre smallest v hv hmin hfirst
    refine ⟨v, ?_, ?_, ?_⟩
    · simpa [min_element_scan] using hv
    · simpa using hmin
    · simpa [min_element_scan] using hfirst
  | cons x xs ih =>
    intro pre smallest v hv hmin hfirst
    have hlen : (pre ++ [x]).length = pre.length + 1 := by simp
    have hsplit : pre ++ x :: xs = (pre ++ [x]) ++ xs := by simp
    have hsm : smallest < pre.length := (List.getElem?_eq_some.1 hv).1
    have hget : ∀ j y, (pre ++ [x])[j]? = some y → pre[j]? = some y ∨ (j = pre.length ∧ y = x) := by
      intro j y hj
      rcases Nat.lt_or_ge j pre.length with h | h
      · left; rwa [List.getElem?_append_left h] at hj
      · right
        have hj2 := (List.getElem?_eq_some.1 hj).1
        have hjl : j = pre.length := by omega
        subst hjl
        rw [List.getElem?_concat_length] at hj
        exact ⟨rfl, (Option.some.inj hj).symm⟩
    rw [hsplit]
    by_cases hx : x < v
    · have h := ih (pre ++ [x]) pre.length x (List.getElem?_concat_length pre x)
        (by
          intro j y hj
          rcases hget j y hj with h | ⟨_, h⟩
          · exact le_trans hx.le (hmin j y h)
          · exact h.ge)
        (by
          intro k y hk hj
          rcases hget k y hj with h | ⟨h, _⟩
          · exact lt_of_lt_of_le hx (hmin k y h)
          · omega)
      simpa [min_element_scan, hx, hlen] using h
    · have h := ih (pre ++ [x]) smallest v
        (by rw [List.getElem?_append_left hsm]; exact hv)
        (by
          intro j y hj
          rcases hget j y hj with h | ⟨_, h⟩
          · exact hmin j y h
          · rw [h]; exact not_lt.1 hx)
        (by
          intro k y hk hj
          rcases hget k y hj with h | ⟨h, _⟩
          · exact hfirst k y hk h
          · omega)
      simpa [min_element_scan, hx, hlen] using h

/-- On a non-empty range `std::min_element` returns the position of the first occurrence
of the minimum. -/
theorem min_element_spec (udfValues : List α) (hne : udfValues ≠ []) :
    ∃ hi : min_element udfValues < udfValues.length,
      (∀ j (hj : j < udfValues.length), udfValues[min_element udfValues] ≤ udfValues[j]) ∧
      (∀ k (hk : k < min_element udfValues),
        udfValues[min_element udfValues] < udfValues[k]) := by
  cases udfValues with
  | nil => exact absurd rfl hne
  | cons x xs =>
    obtain ⟨w, hw, hmin, hfirst⟩ := min_element_scan_spec xs [x] 0 x (by simp)
      (by
        intro j y hj
        obtain ⟨hj1, hj2⟩ := List.getElem?_eq_some.1 hj
        have : j = 0 := by simpa using hj1
        subst this
        simp at hj2
        exact hj2.le)
      (by intro k y hk; omega)
    simp only [List.singleton_append, List.length_singleton] at hw hmin hfirst
    obtain ⟨hi, hwi⟩ := List.getElem?_eq_some.1 hw
    refine ⟨hi, ?_, ?_⟩
    · intro j hj
      show (x :: xs)[min_element_scan xs 0 x 1] ≤ _
      rw [hwi]
      exact hmin j _ (List.getElem?_eq_getElem hj)
    · intro k hk
      show (x :: xs)[min_element_scan xs 0 x 1] < _
      rw [hwi]
      exact hfirst k _ hk (List.getElem?_eq_getElem (lt_trans hk hi))

/-- C1. On a non-empty vector `findOptimalInventory` returns an index `i` inside the
vector whose value is at most every value of the vector and strictly below every value
at a smaller index: the first occurrence of the minimum. -/
theorem findOptimalInventory_first_minimum (udfValues : List α) (hne : udfValues ≠ []) :
    ∃ i : Nat, findOptimalInventory udfValues = (i : Int) ∧
      ∃ hi : i < udfValues.length,
        (∀ j (hj : j < udfValues.length), udfValues[i] ≤ udfValues[j]) ∧
        (∀ k (hk : k < i), udfValues[i] < udfValues[k]) :=
  ⟨min_element udfValues, rfl, min_element_spec udfValues hne⟩

/-- Witness of C1 on the vector `3, 1, 2, 1`: the result is index `1`. -/
theorem findOptimalInventory_first_minimum_witness :
    ([3, 1, 2, 1] : List ℚ) ≠ [] ∧
    ∃ i : Nat, findOptimalInventory ([3, 1, 2, 1] : List ℚ) = (i : Int) ∧
      ∃ hi : i < ([3, 1, 2, 1] : List ℚ).length,
        (∀ j (hj : j < ([3, 1, 2, 1] : List ℚ).length),
          ([3, 1, 2, 1] : List ℚ)[i] ≤ ([3, 1, 2, 1] : List ℚ)[j]) ∧
        (∀ k (hk : k < i), ([3, 1, 2, 1] : List ℚ)[i] < ([3, 1, 2, 1] : List ℚ)[k]) :=
  ⟨by simp, findOptimalInventory_first_minimum _ (by simp)⟩

/-- C5, the code at the failing input: on the empty vector `findOptimalInventory`
returns `0`, the very value it returns on the vector `1, 2` whose minimum is at index
`0`. -/
theorem findOptimalInventory_empty_not_flagged :
    findOptimalInventory ([] : List ℚ) = 0 ∧ findOptimalInventory ([1, 2] : List ℚ) = 0 := by
  constructor
  · rfl
  · simp [findOptimalInventory, min_element, min_element_scan]

end Optimizer

section Inventories

variable {α : Type} [LinearOrderedField α] [FloorRing α]

/-- C3. For an inventory below `0` or above the capacity `calculateUDF` returns the
sentinel `std::numeric_limits<double>::max()` and the calculator, cache included, as it
received it. -/
theorem calculateUDF_invalid_inventory (mexp : MatrixFunction α)
    (calculator : UDFCalculator α) (station : Station α) (initialInventory : Int)
    (discretizationLevel : α)
    (h : initialInventory < 0 ∨ initialInventory > station.getCapacity) :
    calculateUDF mexp calculator station initialInventory discretizationLevel
      = (DBL_MAX, calculator) := by
  unfold calculateUDF
  rw [dif_pos h]

/-- Witness of C3: a station of capacity `-1` and inventory `0`, with
`matrixExponential` of the source for the exponential. -/
theorem calculateUDF_invalid_inventory_witness :
    ((0 : Int) < 0 ∨ (0 : Int) > (Station.new "s" "n" (-1) : Station ℚ).getCapacity) ∧
    calculateUDF (fun _ R => matrixExponential R 100) (UDFCalculator.default : UDFCalculator ℚ)
      (Station.new "s" "n" (-1)) 0 30 = (DBL_MAX, UDFCalculator.default) :=
  ⟨by decide, calculateUDF_invalid_inventory _ _ _ _ _ (by decide)⟩

/-- The loop of `calculateUDFForAllInventories` after `n` passes: the values of
`calculateUDF` for the inventories `0, ..., n - 1`, each on the calculator left by the
calls before it. -/
theorem allInventories_fold (mexp : MatrixFunction α) (calculator : UDFCalculator α)
    (station : Station α) (d : α) (n : Nat) :
    (List.range n).foldl
      (fun (acc : List α × UDFCalculator α) (i : Nat) =>
        ((acc.1 ++ [(calculateUDF mexp acc.2 station (i : Int) d).1],
          (calculateUDF mexp acc.2 station (i : Int) d).2) : List α × UDFCalculator α))
      ([], calculator)
    = ((List.range n).map (fun i =>
        (calculateUDF mexp (calculatorAfter mexp calculator station d i) station (i : Int) d).1),
       calculatorAfter mexp calculator station d n) := by
  induction n with
  | zero => rfl
  | succ n ih =>
    rw [List.range_succ, List.foldl_append, ih]
    simp [calculatorAfter]

/-- The result of `calculateUDFForAllInventories` in closed form. -/
theorem calculateUDFForAllInventories_eq (mexp : MatrixFunction α)
    (calculator : UDFCalculator α) (station : Station α) (d : α) :
    calculateUDFForAllInventories mexp calculator station d
    = ((List.range (station.getCapacity + 1).toNat).map (fun i =>
        (calculateUDF mexp (calculatorAfter mexp calculator station d i) station (i : Int) d).1),
       calculatorAfter mexp calculator station d (station.getCapacity + 1).toNat) := by
  unfold calculateUDFForAllInventories
  exact allInventories_fold mexp calculator station d _

/-- The vector of `calculateUDFForAllInventories` has one value for each pass of its
loop. -/
theorem calculateUDFForAllInventories_length (mexp : MatrixFunction α)
    (calculator : UDFCalculator α) (station : Station α) (d : α) :
    (calculateUDFForAllInventories mexp calculator station d).1.length
      = (station.getCapacity + 1).toNat := by
  rw [calculateUDFForAllInventories_eq]
  simp

/-- C4. For a capacity `C ≥ 0`, `calculateUDFForAllInventories` returns `C + 1` values;
the value at index `i` is the result of `calculateUDF` for inventory `i`, called on the
calculator left by the calls for `0, ..., i - 1`; each of these inventories is in
`[0, C]`, so the guard of the sentinel branch is false; and `findOptimalInventory` of the
vector is an index in `[0, C]`. For a negative capacity the vector is empty. The
discretization level can be any number. -/
theorem calculateUDFForAllInventories_spec (mexp : MatrixFunction α)
    (calculator : UDFCalculator α) (station : Station α) (d : α) :
    (0 ≤ station.getCapacity →
      (calculateUDFForAllInventories mexp calculator station d).1.length
          = (station.getCapacity + 1).toNat ∧
      (∀ i : Nat, (i : Int) ≤ station.getCapacity →
        (calculateUDFForAllInventories mexp calculator station d).1[i]?
            = some (calculateUDF mexp (calculatorAfter mexp calculator station d i)
                station (i : Int) d).1 ∧
        ¬ ((i : Int) < 0 ∨ (i : Int) > station.getCapacity)) ∧
      (∀ i : Nat, i < (calculateUDFForAllInventories mexp calculator station d).1.length →
        (i : Int) ≤ station.getCapacity) ∧
      0 ≤ findOptimalInventory (calculateUDFForAllInventories mexp calculator station d).1 ∧
      findOptimalInventory (calculateUDFForAllInventories mexp calculator station d).1
        ≤ station.getCapacity) ∧
    (station.getCapacity < 0 →
      (calculateUDFForAllInventories mexp calculator station d).1 = []) := by
  rw [calculateUDFForAllInventories_eq]
  dsimp only
  constructor
  · intro hC
    have hlen : ((List.range (station.getCapacity + 1).toNat).map (fun i =>
        (calculateUDF mexp (calculatorAfter mexp calculator station d i)
          station (i : Int) d).1)).length = (station.getCapacity + 1).toNat := by simp
    refine ⟨hlen, ?_, ?_, ?_⟩
    · intro i hi
      have hi2 : i < (station.getCapacity + 1).toNat := by omega
      refine ⟨?_, by omega⟩
      rw [List.getElem?_map, List.getElem?_range hi2]
      rfl
    · intro i hi
      rw [hlen] at hi
      omega
    · have hne : ((List.range (station.getCapacity + 1).toNat).map (fun i =>
          (calculateUDF mexp (calculatorAfter mexp calculator station d i)
            station (i : Int) d).1)) ≠ [] := by
        intro h
        have h2 := congrArg List.length h
        rw [hlen] at h2
        simp at h2
        omega
      obtain ⟨hlt, -, -⟩ := min_element_spec _ hne
      rw [hlen] at hlt
      show 0 ≤ ((min_element _ : Nat) : Int) ∧ ((min_element _ : Nat) : Int) ≤ _
      constructor <;> omega
  · intro hC
    have h0 : (station.getCapacity + 1).toNat = 0 := by omega
    simp [h0]

/-- Witness of C4: a station of capacity `2` with rental rate `1/50` in slot `0`, and a
station of capacity `-1`, each on a new calculator with the step `360`. -/
theorem calculateUDFForAllInventories_spec_witness :
    (0 ≤ ((Station.new "s" "n" 2 : Station ℚ).setRentalRate 0 (1 / 50)).getCapacity ∧
      (calculateUDFForAllInventories (fun _ R => matrixExponential R 100)
        (UDFCalculator.default : UDFCalculator ℚ)
        ((Station.new "s" "n" 2 : Station ℚ).setRentalRate 0 (1 / 50)) 360).1.length
        = ((2 : Int) + 1).toNat) ∧
    ((Station.new "s" "n" (-1) : Station ℚ).getCapacity < 0 ∧
      (calculateUDFForAllInventories (fun _ R => matrixExponential R 100)
        (UDFCalculator.default : UDFCalculator ℚ)
        (Station.new "s" "n" (-1) : Station ℚ) 360).1 = []) :=
  ⟨⟨by decide,
    ((calculateUDFForAllInventories_spec (fun _ R => matrixExponential R 100)
      (UDFCalculator.default : UDFCalculator ℚ)
      ((Station.new "s" "n" 2 : Station ℚ).setRentalRate 0 (1 / 50)) 360).1 (by decide)).1⟩,
   ⟨by decide,
    (calculateUDFForAllInventories_spec (fun _ R => matrixExponential R 100)
      (UDFCalculator.default : UDFCalculator ℚ)
      (Station.new "s" "n" (-1) : Station ℚ) 360).2 (by decide)⟩⟩

/-- The loop of `calculateMarginalUDF` after `n` passes, when the vector has more than
`n` values: every read is inside the vector and the differences are collected in
order. -/
theorem marginal_fold (udfValues : List α) (n : Nat) (hn : n < udfValues.length) :
    (List.range n).foldl
      (fun (acc : Option (List α)) (k : Nat) =>
        acc.bind fun m =>
          (udfValues.get? (k + 1)).bind fun a =>
            (udfValues.get? (k + 1 - 1)).map fun b => m ++ [a - b])
      (some [])
    = some ((List.range n).map (fun k => udfValues.getD (k + 1) 0 - udfValues.getD k 0)) := by
  induction n with
  | zero => rfl
  | succ n ih =>
    rw [List.range_succ, List.foldl_append, ih (by omega)]
    have h1 : udfValues[n + 1]? = some (udfValues.getD (n + 1) 0) := by
      rw [List.getD_eq_getElem?_getD, List.getElem?_eq_getElem hn]; rfl
    have h0 : udfValues[n]? = some (udfValues.getD n 0) := by
      rw [List.getD_eq_getElem?_getD, List.getElem?_eq_getElem (by omega : n < udfValues.length)]
      rfl
    simp only [List.foldl_cons, List.foldl_nil, List.get?_eq_getElem?, Nat.add_sub_cancel,
      h1, h0, Option.some_bind, Option.map_some', List.map_append, List.map_cons, List.map_nil]

/-- C7. For a capacity `C ≥ 0`, `calculateMarginalUDF` reads only inside the vector `UDF`
of `calculateUDFForAllInventories` and returns a vector of length `C` whose element at
position `i - 1` is `UDF[i] - UDF[i-1]`, for `i = 1..C`. The discretization level can be
any number. -/
theorem calculateMarginalUDF_spec (mexp : MatrixFunction α) (calculator : UDFCalculator α)
    (station : Station α) (d : α) (hC : 0 ≤ station.getCapacity) :
    ∃ marginalValues : List α,
      (calculateMarginalUDF mexp calculator station d).1 = some marginalValues ∧
      (marginalValues.length : Int) = station.getCapacity ∧
      marginalValues.length + 1
        = (calculateUDFForAllInventories mexp calculator station d).1.length ∧
      ∀ i : Nat, 1 ≤ i → (i : Int) ≤ station.getCapacity →
        ∃ a b : α,
          (calculateUDFForAllInventories mexp calculator station d).1[i]? = some a ∧
          (calculateUDFForAllInventories mexp calculator station d).1[i - 1]? = some b ∧
          marginalValues[i - 1]? = some (a - b) := by
  have hlen : (calculateUDFForAllInventories mexp calculator station d).1.length
      = (station.getCapacity + 1).toNat :=
    calculateUDFForAllInventories_length mexp calculator station d
  have hn : station.getCapacity.toNat
      < (calculateUDFForAllInventories mexp calculator station d).1.length := by
    rw [hlen]; omega
  refine ⟨(List.range station.getCapacity.toNat).map (fun k =>
    (calculateUDFForAllInventories mexp calculator station d).1.getD (k + 1) 0
      - (calculateUDFForAllInventories mexp calculator station d).1.getD k 0), ?_, ?_, ?_, ?_⟩
  · unfold calculateMarginalUDF
    exact marginal_fold _ _ hn
  · simp; omega
  · rw [hlen]; simp; omega
  · intro i h1 hi
    have hi1 : i < (calculateUDFForAllInventories mexp calculator station d).1.length := by
      omega
    have hi0 : i - 1 < (calculateUDFForAllInventories mexp calculator station d).1.length := by
      omega
    refine ⟨_, _, List.getElem?_eq_getElem hi1, List.getElem?_eq_getElem hi0, ?_⟩
    rw [List.getElem?_map, List.getElem?_range (by omega : i - 1 < station.getCapacity.toNat)]
    have e : i - 1 + 1 = i := by omega
    simp only [Option.map_some', e]
    rw [List.getD_eq_getElem?_getD, List.getD_eq_getElem?_getD,
      List.getElem?_eq_getElem hi1, List.getElem?_eq_getElem hi0]
    rfl

/-- Witness of C7: a station of capacity `2` with rental rate `1/50` in slot `0` on a new
calculator, with the step `360`. -/
theorem calculateMarginalUDF_spec_witness :
    0 ≤ ((Station.new "s" "n" 2 : Station ℚ).setRentalRate 0 (1 / 50)).getCapacity ∧
    ∃ marginalValues : List ℚ,
      (calculateMarginalUDF (fun _ R => matrixExponential R 100)
        (UDFCalculator.default : UDFCalculator ℚ)
        ((Station.new "s" "n" 2 : Station ℚ).setRentalRate 0 (1 / 50)) 360).1
        = some marginalValues ∧
      (marginalValues.length : Int) = 2 :=
  ⟨by decide,
    (calculateMarginalUDF_spec (fun _ R => matrixExponential R 100)
      (UDFCalculator.default : UDFCalculator ℚ)
      ((Station.new "s" "n" 2 : Station ℚ).setRentalRate 0 (1 / 50)) 360 (by decide)).imp
      fun _ h => ⟨h.1, h.2.1⟩⟩

end Inventories

section Cache

variable {α : Type} [LinearOrderedField α] [FloorRing α]

/-- On a key the cache holds, `calculateTransitionMatrix` returns the stored matrix and
leaves the calculator as it is. -/
theorem calculateTransitionMatrix_hit (mexp : MatrixFunction α) (calculator : UDFCalculator α)
    (r q : α) (capacity : Int) (dt : α) (M : MatrixXd α capacity)
    (h : calculator.transitionMatrixCache (cacheKey r q capacity dt) = some M) :
    calculateTransitionMatrix mexp calculator r q capacity dt = (M, calculator) := by
  unfold calculateTransitionMatrix
  simp only [h]

/-- On a key the cache does not hold, `calculateTransitionMatrix` computes the matrix
function of `R * deltaTime`, stores it under the key and returns it. -/
theorem calculateTransitionMatrix_miss (mexp : MatrixFunction α) (calculator : UDFCalculator α)
    (r q : α) (capacity : Int) (dt : α)
    (h : calculator.transitionMatrixCache (cacheKey r q capacity dt) = none) :
    calculateTransitionMatrix mexp calculator r q capacity dt
      = (mexp _ (dt • rateMatrix r q capacity),
         { calculator with
           transitionMatrixCache := Function.update calculator.transitionMatrixCache
             (cacheKey r q capacity dt)
             (some (mexp _ (dt • rateMatrix r q capacity) : MatrixXd α capacity)) }) := by
  unfold calculateTransitionMatrix
  simp only [h]

/-- A call of `calculateTransitionMatrix` leaves the two penalties as they are. -/
theorem calculateTransitionMatrix_penalties (mexp : MatrixFunction α)
    (calculator : UDFCalculator α) (r q : α) (capacity : Int) (dt : α) :
    (calculateTransitionMatrix mexp calculator r q capacity dt).2.penaltyRenter
        = calculator.penaltyRenter ∧
    (calculateTransitionMatrix mexp calculator r q capacity dt).2.penaltyReturner
        = calculator.penaltyReturner := by
  cases h : calculator.transitionMatrixCache (cacheKey r q capacity dt) with
  | none => rw [calculateTransitionMatrix_miss mexp calculator r q capacity dt h]; exact ⟨rfl, rfl⟩
  | some M => rw [calculateTransitionMatrix_hit mexp calculator r q capacity dt M h]; exact ⟨rfl, rfl⟩

/-- A call of `calculateTransitionMatrix` never replaces an entry of the cache. -/
theorem calculateTransitionMatrix_keeps (mexp : MatrixFunction α)
    (calculator : UDFCalculator α) (r q : α) (capacity : Int) (dt : α)
    (k : CacheKey α) (M : MatrixXd α k.capacity)
    (hk : calculator.transitionMatrixCache k = some M) :
    (calculateTransitionMatrix mexp calculator r q capacity dt).2.transitionMatrixCache k
      = some M := by
  cases h : calculator.transitionMatrixCache (cacheKey r q capacity dt) with
  | none =>
    rw [calculateTransitionMatrix_miss mexp calculator r q capacity dt h]
    have hne : k ≠ cacheKey r q capacity dt := by
      intro e
      subst e
      rw [h] at hk
      exact Option.noConfusion hk
    show Function.update calculator.transitionMatrixCache _ _ k = some M
    rw [Function.update_noteq hne]
    exact hk
  | some M0 =>
    rw [calculateTransitionMatrix_hit mexp calculator r q capacity dt M0 h]
    exact hk

/-- After a call of `calculateTransitionMatrix` the cache holds the returned matrix under
the key of the call. -/
theorem calculateTransitionMatrix_stores (mexp : MatrixFunction α)
    (calculator : UDFCalculator α) (r q : α) (capacity : Int) (dt : α) :
    (calculateTransitionMatrix mexp calculator r q capacity dt).2.transitionMatrixCache
        (cacheKey r q capacity dt)
      = some (calculateTransitionMatrix mexp calculator r q capacity dt).1 := by
  cases h : calculator.transitionMatrixCache (cacheKey r q capacity dt) with
  | none =>
    rw [calculateTransitionMatrix_miss mexp calculator r q capacity dt h]
    show Function.update calculator.transitionMatrixCache _ _ _ = _
    rw [Function.update_same]
  | some M0 =>
    rw [calculateTransitionMatrix_hit mexp calculator r q capacity dt M0 h]
    exact h

/-- An entry of the cache after a call of `calculateTransitionMatrix` was there before
the call or is under the key of the call. -/
theorem calculateTransitionMatrix_origin (mexp : MatrixFunction α)
    (calculator : UDFCalculator α) (r q : α) (capacity : Int) (dt : α) (k : CacheKey α)
    (hk : ((calculateTransitionMatrix mexp calculator r q capacity dt).2.transitionMatrixCache
      k).isSome) :
    (calculator.transitionMatrixCache k).isSome ∨ k = cacheKey r q capacity dt := by
  by_cases e : k = cacheKey r q capacity dt
  · exact Or.inr e
  · left
    cases h : calculator.transitionMatrixCache (cacheKey r q capacity dt) with
    | none =>
      rw [calculateTransitionMatrix_miss mexp calculator r q capacity dt h] at hk
      have hk2 : (Function.update calculator.transitionMatrixCache
          (cacheKey r q capacity dt)
          (some (mexp _ (dt • rateMatrix r q capacity) : MatrixXd α capacity)) k).isSome := hk
      rw [Function.update_noteq e] at hk2
      exact hk2
    | some M0 =>
      rw [calculateTransitionMatrix_hit mexp calculator r q capacity dt M0 h] at hk
      exact hk

/-- Entries of the cache survive every further sequence of calls. -/
theorem afterCalls_keeps (mexp : MatrixFunction α) (calls : List (TransitionCall α)) :
    ∀ (calculator : UDFCalculator α) (k : CacheKey α) (M : MatrixXd α k.capacity),
      calculator.transitionMatrixCache k = some M →
      (afterCalls mexp calculator calls).transitionMatrixCache k = some M := by
  induction calls with
  | nil => intro calculator k M h; exact h
  | cons a rest ih =>
    intro calculator k M h
    exact ih _ k M (calculateTransitionMatrix_keeps mexp calculator _ _ _ _ k M h)

/-- The keys of the cache after a sequence of calls on a calculator are the keys it had
before and the keys of the calls. -/
theorem afterCalls_keys (mexp : MatrixFunction α) (calls : List (TransitionCall α)) :
    ∀ (calculator : UDFCalculator α) (k : CacheKey α),
      ((afterCalls mexp calculator calls).transitionMatrixCache k).isSome ↔
        ((calculator.transitionMatrixCache k).isSome ∨
          ∃ b ∈ calls, cacheKey b.rentalRate b.returnRate b.capacity b.deltaTime = k) := by
  induction calls with
  | nil => intro calculator k; simp [afterCalls]
  | cons a rest ih =>
    intro calculator k
    show ((afterCalls mexp _ rest).transitionMatrixCache k).isSome ↔ _
    rw [ih]
    constructor
    · rintro (h | ⟨b, hb, hbk⟩)
      · rcases calculateTransitionMatrix_origin mexp calculator _ _ _ _ k h with h1 | h1
        · exact Or.inl h1
        · exact Or.inr ⟨a, List.mem_cons_self _ _, h1.symm⟩
      · exact Or.inr ⟨b, List.mem_cons_of_mem _ hb, hbk⟩
    · rintro (h | ⟨b, hb, hbk⟩)
      · left
        obtain ⟨M, hM⟩ := Option.isSome_iff_exists.1 h
        rw [calculateTransitionMatrix_keeps mexp calculator _ _ _ _ k M hM]
        rfl
      · rcases List.mem_cons.1 hb with rfl | hb
        · left
          rw [← hbk, calculateTransitionMatrix_stores]
          rfl
        · exact Or.inr ⟨b, hb, hbk⟩

/-- The function `std::round` leaves a whole number as it is. -/
theorem std_round_intCast (m : Int) : std_round ((m : Int) : α) = (m : α) := by
  have hhalf : ⌊(1 / 2 : α)⌋ = 0 := by
    rw [Int.floor_eq_iff]; constructor <;> norm_num
  have hhalf2 : ⌈(-(1 / 2) : α)⌉ = 0 := by
    rw [Int.ceil_eq_iff]; constructor <;> norm_num
  unfold std_round
  split
  · rw [Int.floor_int_add, hhalf, add_zero]
  · rw [sub_eq_add_neg, add_comm, Int.ceil_add_int, hhalf2, zero_add]

/-- The rates `0.501` and `0.504` have the same two-decimal key component, `0.50`. -/
theorem quantize_501_504 : quantize (501 / 1000 : α) = quantize (504 / 1000 : α) := by
  have h1 : ⌊(501 / 1000 : α) * 100 + 1 / 2⌋ = 50 := by
    rw [Int.floor_eq_iff]; constructor <;> norm_num
  have h2 : ⌊(504 / 1000 : α) * 100 + 1 / 2⌋ = 50 := by
    rw [Int.floor_eq_iff]; constructor <;> norm_num
  have p1 : (0 : α) ≤ 501 / 1000 * 100 := by norm_num
  have p2 : (0 : α) ≤ 504 / 1000 * 100 := by norm_num
  simp only [quantize, std_round, if_pos p1, if_pos p2, h1, h2]

/-- Two calls with the same capacity and the same quantized rates and elapsed time look
up the same entry of the cache. -/
theorem lookup_congr (calculator : UDFCalculator α) (r1 q1 dt1 r q dt : α) (capacity : Int)
    (hr : quantize r1 = quantize r) (hq : quantize q1 = quantize q)
    (hdt : quantize dt1 = quantize dt) :
    (calculator.transitionMatrixCache (cacheKey r1 q1 capacity dt1) :
        Option (MatrixXd α capacity))
      = calculator.transitionMatrixCache (cacheKey r q capacity dt) := by
  unfold cacheKey
  generalize quantize r1 = a1 at hr
  generalize quantize q1 = b1 at hq
  generalize quantize dt1 = c1 at hdt
  subst hr hq hdt
  rfl

/-- A call that follows, on the same calculator, an earlier call with the same capacity
and the same quantized rates and elapsed time returns the matrix of that earlier call. -/
theorem calculateTransitionMatrix_repeat (mexp : MatrixFunction α)
    (calculator : UDFCalculator α) (between : List (TransitionCall α))
    (r1 q1 dt1 r q dt : α) (capacity : Int)
    (hr : quantize r1 = quantize r) (hq : quantize q1 = quantize q)
    (hdt : quantize dt1 = quantize dt) :
    (calculateTransitionMatrix mexp
      (afterCalls mexp (calculateTransitionMatrix mexp calculator r1 q1 capacity dt1).2 between)
      r q capacity dt).1
    = (calculateTransitionMatrix mexp calculator r1 q1 capacity dt1).1 := by
  have h1 := calculateTransitionMatrix_stores mexp calculator r1 q1 capacity dt1
  have h2 := afterCalls_keeps mexp between _ _ _ h1
  rw [calculateTransitionMatrix_hit mexp _ r q capacity dt _
    ((lookup_congr _ r1 q1 dt1 r q dt capacity hr hq hdt).symm.trans h2)]

/-- Witness material for C10: `0.50` and `0.504` have the same two-decimal value. -/
theorem quantize_half_504 : quantize (1 / 2 : ℚ) = quantize (504 / 1000 : ℚ) := by
  have h1 : ⌊(1 / 2 : ℚ) * 100 + 1 / 2⌋ = 50 := by
    rw [Int.floor_eq_iff]; constructor <;> norm_num
  have h2 : ⌊(504 / 1000 : ℚ) * 100 + 1 / 2⌋ = 50 := by
    rw [Int.floor_eq_iff]; constructor <;> norm_num
  have p1 : (0 : ℚ) ≤ 1 / 2 * 100 := by norm_num
  have p2 : (0 : ℚ) ≤ 504 / 1000 * 100 := by norm_num
  simp only [quantize, std_round, if_pos p1, if_pos p2, h1, h2]

/-- C10. On a calculator that has served the calls `earlier` since its construction,
`calculateTransitionMatrix` finds its key in the cache exactly when one of the earlier
calls had the same capacity and the same values of `round(x*100)/100` for the rental
rate, the return rate and the elapsed time; when it finds the key it returns the stored
matrix and changes nothing, otherwise it computes the matrix and stores it; the matrix
returned on a hit is exactly the one returned to every such earlier call; rates `0.501`
and `0.504` give identical matrices; and a call whose capacity differs from the capacity
of every earlier call never finds an entry. -/
theorem calculateTransitionMatrix_cache_spec (mexp : MatrixFunction α) (p h : α)
    (earlier : List (TransitionCall α)) (r q : α) (capacity : Int) (dt : α) :
    (((afterCalls mexp (UDFCalculator.new p h) earlier).transitionMatrixCache
        (cacheKey r q capacity dt)).isSome ↔
      ∃ b ∈ earlier, b.capacity = capacity ∧ quantize b.rentalRate = quantize r ∧
        quantize b.returnRate = quantize q ∧ quantize b.deltaTime = quantize dt) ∧
    (∀ M : MatrixXd α capacity,
      (afterCalls mexp (UDFCalculator.new p h) earlier).transitionMatrixCache
          (cacheKey r q capacity dt) = some M →
      calculateTransitionMatrix mexp (afterCalls mexp (UDFCalculator.new p h) earlier)
          r q capacity dt
        = (M, afterCalls mexp (UDFCalculator.new p h) earlier)) ∧
    ((afterCalls mexp (UDFCalculator.new p h) earlier).transitionMatrixCache
          (cacheKey r q capacity dt) = none →
      (calculateTransitionMatrix mexp (afterCalls mexp (UDFCalculator.new p h) earlier)
          r q capacity dt).1 = mexp _ (dt • rateMatrix r q capacity)) ∧
    (∀ (before after : List (TransitionCall α)) (r1 q1 dt1 : α),
      earlier = before ++ { rentalRate := r1, returnRate := q1, capacity := capacity,
                            deltaTime := dt1 } :: after →
      quantize r1 = quantize r → quantize q1 = quantize q → quantize dt1 = quantize dt →
      (calculateTransitionMatrix mexp (afterCalls mexp (UDFCalculator.new p h) earlier)
          r q capacity dt).1
        = (calculateTransitionMatrix mexp (afterCalls mexp (UDFCalculator.new p h) before)
            r1 q1 capacity dt1).1) ∧
    (calculateTransitionMatrix mexp
        (calculateTransitionMatrix mexp (UDFCalculator.new p h)
          (501 / 1000) q capacity dt).2 (504 / 1000) q capacity dt).1
      = (calculateTransitionMatrix mexp (UDFCalculator.new p h)
          (501 / 1000) q capacity dt).1 ∧
    ((∀ b ∈ earlier, b.capacity ≠ capacity) →
      (afterCalls mexp (UDFCalculator.new p h) earlier).transitionMatrixCache
        (cacheKey r q capacity dt) = none) := by
  have hkeys : (((afterCalls mexp (UDFCalculator.new p h) earlier).transitionMatrixCache
        (cacheKey r q capacity dt)).isSome ↔
      ∃ b ∈ earlier, b.capacity = capacity ∧ quantize b.rentalRate = quantize r ∧
        quantize b.returnRate = quantize q ∧ quantize b.deltaTime = quantize dt) := by
    rw [afterCalls_keys]
    constructor
    · rintro (h0 | ⟨b, hb, hk⟩)
      · exact absurd h0 (by simp [UDFCalculator.new])
      · simp only [cacheKey, CacheKey.mk.injEq] at hk
        exact ⟨b, hb, hk.2.2.1, hk.1, hk.2.1, hk.2.2.2⟩
    · rintro ⟨b, hb, hc, hr, hq, hdt⟩
      right
      refine ⟨b, hb, ?_⟩
      simp only [cacheKey, CacheKey.mk.injEq]
      exact ⟨hr, hq, hc, hdt⟩
  refine ⟨hkeys, ?_, ?_, ?_, ?_, ?_⟩
  · intro M hM
    exact calculateTransitionMatrix_hit mexp _ r q capacity dt M hM
  · intro hnone
    rw [calculateTransitionMatrix_miss mexp _ r q capacity dt hnone]
  · intro before after r1 q1 dt1 hsplit hr hq hdt
    have e : afterCalls mexp (UDFCalculator.new p h) earlier
        = afterCalls mexp (calculateTransitionMatrix mexp
            (afterCalls mexp (UDFCalculator.new p h) before) r1 q1 capacity dt1).2 after := by
      rw [hsplit]
      simp [afterCalls, List.foldl_append]
    rw [e]
    exact calculateTransitionMatrix_repeat mexp _ after r1 q1 dt1 r q dt capacity hr hq hdt
  · exact calculateTransitionMatrix_repeat mexp _ [] _ q dt _ q dt capacity
      quantize_501_504 rfl rfl
  · intro hcap
    rw [← Option.not_isSome_iff_eq_none, hkeys]
    rintro ⟨b, hb, hc, -⟩
    exact hcap b hb hc

/-- Witness of C10: after the call `(0.5, 0, 1, 30)` on a new calculator the call
`(0.504, 0, 1, 30)` finds its key, and the call `(0.5, 0, 2, 30)` does not. -/
theorem calculateTransitionMatrix_cache_spec_witness :
    ((afterCalls (fun _ R => matrixExponential R 100) (UDFCalculator.new (1 : ℚ) 1)
        [{ rentalRate := 1 / 2, returnRate := 0, capacity := 1, deltaTime := 30 }]
      ).transitionMatrixCache (cacheKey (504 / 1000) 0 1 30)).isSome ∧
    (afterCalls (fun _ R => matrixExponential R 100) (UDFCalculator.new (1 : ℚ) 1)
        [{ rentalRate := 1 / 2, returnRate := 0, capacity := 1, deltaTime := 30 }]
      ).transitionMatrixCache (cacheKey (1 / 2) 0 2 30) = none :=
  ⟨(calculateTransitionMatrix_cache_spec (fun _ R => matrixExponential R 100) (1 : ℚ) 1
      [{ rentalRate := 1 / 2, returnRate := 0, capacity := 1, deltaTime := 30 }]
      (504 / 1000) 0 1 30).1.2
      ⟨_, List.mem_singleton.2 rfl, rfl, quantize_half_504, rfl, rfl⟩,
   (calculateTransitionMatrix_cache_spec (fun _ R => matrixExponential R 100) (1 : ℚ) 1
      [{ rentalRate := 1 / 2, returnRate := 0, capacity := 1, deltaTime := 30 }]
      (1 / 2) 0 2 30).2.2.2.2.2
      (by intro b hb; rw [List.mem_singleton.1 hb]; decide)⟩

end Cache

section NoDemand

variable {α : Type} [LinearOrderedField α] [FloorRing α]

/-- Reading a table filled with its default value gives that value at every index. -/
theorem getD_replicate_default {β : Type} (n i : Nat) (a : β) :
    (List.replicate n a).getD i a = a := by
  rw [List.getD_eq_getElem?_getD, List.getElem?_replicate]
  split <;> rfl

/-- A station just constructed has the rate `0` in every slot of both tables. -/
theorem new_rates_zero (id name : String) (capacity : Int) (t : Int) :
    (Station.new id name capacity : Station α).getRentalRate t = 0 ∧
    (Station.new id name capacity : Station α).getReturnRate t = 0 := by
  unfold Station.getRentalRate Station.getReturnRate Station.new
  constructor <;> split <;> first | exact getD_replicate_default _ _ _ | rfl

/-- Reading a filled table inside its length gives the value it was filled with. -/
theorem getD_replicate_lt {β : Type} (n i : Nat) (a b : β) (h : i < n) :
    (List.replicate n a).getD i b = a := by
  rw [List.getD_eq_getElem?_getD, List.getElem?_replicate, if_pos h]
  rfl

/-- The station of the scenario has rental rate `2` and return rate `0` in the 48 slots. -/
theorem scenarioStation_rates (t : Int) (h0 : 0 ≤ t) (h1 : t < 48) :
    (scenarioStation : Station α).getRentalRate t = 2 ∧
    (scenarioStation : Station α).getReturnRate t = 0 := by
  unfold Station.getRentalRate Station.getReturnRate scenarioStation
  have h : 0 ≤ t ∧ t < Station.TIME_SLOTS := ⟨h0, h1⟩
  rw [if_pos h, if_pos h]
  exact ⟨getD_replicate_lt 48 _ 2 0 (by omega), getD_replicate_lt 48 _ 0 0 (by omega)⟩

/-- A rate table that is `0` in the 48 slots gives the rate `0` at every `int`. -/
theorem getRentalRate_zero (station : Station α)
    (hr : ∀ t : Int, 0 ≤ t → t < 48 → station.getRentalRate t = 0) (t : Int) :
    station.getRentalRate t = 0 := by
  by_cases h : 0 ≤ t ∧ t < 48
  · exact hr t h.1 h.2
  · exact if_neg h

/-- A rate table that is `0` in the 48 slots gives the rate `0` at every `int`. -/
theorem getReturnRate_zero (station : Station α)
    (hq : ∀ t : Int, 0 ≤ t → t < 48 → station.getReturnRate t = 0) (t : Int) :
    station.getReturnRate t = 0 := by
  by_cases h : 0 ≤ t ∧ t < 48
  · exact hq t h.1 h.2
  · exact if_neg h

/-- Without demand a pass of the loop of `calculateUDF` adds nothing to `udf`. -/
theorem udfStep_no_demand (mexp : MatrixFunction α) (station : Station α) (d : α)
    (hr : ∀ t : Int, 0 ≤ t → t < 48 → station.getRentalRate t = 0)
    (hq : ∀ t : Int, 0 ≤ t → t < 48 → station.getReturnRate t = 0)
    {capacity : Int} (row first last : Fin (capacity + 1).toNat)
    (s : UDFLoopState α capacity) (step : Int) :
    (udfStep mexp station d row first last s step).udf = s.udf := by
  simp [udfStep, getRentalRate_zero station hr, getReturnRate_zero station hq]

/-- Without demand `udf` is still `0` after any passes of the loop of `calculateUDF`. -/
theorem udfFold_no_demand (mexp : MatrixFunction α) (station : Station α) (d : α)
    (hr : ∀ t : Int, 0 ≤ t → t < 48 → station.getRentalRate t = 0)
    (hq : ∀ t : Int, 0 ≤ t → t < 48 → station.getReturnRate t = 0)
    {capacity : Int} (row first last : Fin (capacity + 1).toNat) (steps : List Nat) :
    ∀ s : UDFLoopState α capacity, s.udf = 0 →
      (steps.foldl (fun s (step : Nat) => udfStep mexp station d row first last s (step : Int))
        s).udf = 0 := by
  induction steps with
  | nil => intro s hs; exact hs
  | cons k rest ih =>
    intro s hs
    exact ih _ ((udfStep_no_demand mexp station d hr hq row first last s k).trans hs)

/-- C2. For a station whose rental and return rates are `0` in all 48 slots and an
inventory in `[0, C]` (so the capacity `C` is at least `0`), `calculateUDF` returns exactly
`0`, for every discretization level (positive or not), every pair of penalties and every
content of the cache. -/
theorem calculateUDF_no_demand (mexp : MatrixFunction α) (calculator : UDFCalculator α)
    (station : Station α) (initialInventory : Int) (discretizationLevel : α)
    (hr : ∀ t : Int, 0 ≤ t → t < 48 → station.getRentalRate t = 0)
    (hq : ∀ t : Int, 0 ≤ t → t < 48 → station.getReturnRate t = 0)
    (h0 : 0 ≤ initialInventory) (h1 : initialInventory ≤ station.getCapacity) :
    (calculateUDF mexp calculator station initialInventory discretizationLevel).1 = 0 := by
  have hg : ¬ (initialInventory < 0 ∨ initialInventory > station.getCapacity) := by omega
  unfold calculateUDF
  rw [dif_neg hg]
  exact udfFold_no_demand mexp station discretizationLevel hr hq _ _ _ _ _ rfl

/-- Witness of C2: a new station of capacity `3`, inventory `2`, step `30`, penalties
`(5, 7)`, on a calculator that has already served a call with other rates. -/
theorem calculateUDF_no_demand_witness :
    ((∀ t : Int, 0 ≤ t → t < 48 → (Station.new "s" "n" 3 : Station ℚ).getRentalRate t = 0) ∧
     (∀ t : Int, 0 ≤ t → t < 48 → (Station.new "s" "n" 3 : Station ℚ).getReturnRate t = 0) ∧
     (0 : Int) ≤ 2 ∧ (2 : Int) ≤ (Station.new "s" "n" 3 : Station ℚ).getCapacity) ∧
    (calculateUDF (fun _ R => matrixExponential R 100)
      (afterCalls (fun _ R => matrixExponential R 100) (UDFCalculator.new (5 : ℚ) 7)
        [{ rentalRate := 1 / 2, returnRate := 1 / 3, capacity := 3, deltaTime := 30 }])
      (Station.new "s" "n" 3) 2 30).1 = 0 :=
  have hr : ∀ t : Int, 0 ≤ t → t < 48 →
      (Station.new "s" "n" 3 : Station ℚ).getRentalRate t = 0 := by
    intro t _ _
    exact (new_rates_zero "s" "n" 3 t).1
  have hq : ∀ t : Int, 0 ≤ t → t < 48 →
      (Station.new "s" "n" 3 : Station ℚ).getReturnRate t = 0 := by
    intro t _ _
    exact (new_rates_zero "s" "n" 3 t).2
  ⟨⟨hr, hq, by decide, by decide⟩,
    calculateUDF_no_demand _ _ _ _ _ hr hq (by decide) (by decide)⟩

end NoDemand

section Rates

variable {α : Type} [LinearOrderedField α] [FloorRing α]

/-- The coefficients of the matrix after one pass of the loop that fills the rate
matrix. -/
theorem fillRow_apply (r q : α) (capacity : Int) (R : MatrixXd α capacity) (i : Int)
    (a b : Fin (capacity + 1).toNat) :
    fillRow r q capacity R i a b =
      if ((a : Nat) : Int) = i then
        (if ((b : Nat) : Int) = i then
            -((if i > 0 then r else 0) + (if i < capacity then q else 0))
          else if ((b : Nat) : Int) = i - 1 ∧ i > 0 then r
          else if ((b : Nat) : Int) = i + 1 ∧ i < capacity then q
          else R a b)
      else R a b := by
  unfold fillRow
  by_cases h1 : i > 0 <;> by_cases h2 : i < capacity <;>
    simp only [h1, h2, if_true, if_false, setCoeff, and_true, and_false] <;>
    split_ifs <;> first | rfl | (exfalso; omega)

/-- The loop that fills the rate matrix, after `m` passes: the rows below `m` hold the
rates of the specification, the other rows are still zero. -/
theorem rateMatrix_fold (r q : α) (capacity : Int) (m : Nat) :
    (List.range m).foldl (fun R (i : Nat) => fillRow r q capacity R (i : Int))
        (0 : MatrixXd α capacity)
      = fun (a b : Fin (capacity + 1).toNat) =>
          if (a : Nat) < m then specRate r q capacity a b else 0 := by
  induction m with
  | zero => funext a b; simp
  | succ m ih =>
    rw [List.range_succ, List.foldl_append, ih]
    funext a b
    have hb := b.isLt
    have ha := a.isLt
    simp only [List.foldl_cons, List.foldl_nil]
    rw [fillRow_apply]
    rcases Nat.lt_trichotomy (a : Nat) m with h | h | h
    · have e1 : ¬ (((a : Nat) : Int) = (m : Int)) := by omega
      have e2 : (a : Nat) < m + 1 := by omega
      rw [if_neg e1, if_pos h, if_pos e2]
    · have e1 : ((a : Nat) : Int) = (m : Int) := by omega
      have e2 : (a : Nat) < m + 1 := by omega
      have e3 : ¬ ((a : Nat) < m) := by omega
      rw [if_pos e1, if_pos e2, if_neg e3, h]
      unfold specRate
      split_ifs <;> first | rfl | (exfalso; omega)
    · have e1 : ¬ (((a : Nat) : Int) = (m : Int)) := by omega
      have e2 : ¬ ((a : Nat) < m + 1) := by omega
      have e3 : ¬ ((a : Nat) < m) := by omega
      rw [if_neg e1, if_neg e3, if_neg e2]

/-- The coefficients of the rate matrix that `calculateTransitionMatrix` builds. -/
theorem rateMatrix_apply (r q : α) (capacity : Int) (a b : Fin (capacity + 1).toNat) :
    rateMatrix r q capacity a b = specRate r q capacity a b := by
  unfold rateMatrix
  rw [rateMatrix_fold]
  exact if_pos a.isLt

/-- The rate matrix that `calculateTransitionMatrix` builds is the generator matrix of
the specification. -/
theorem rateMatrix_eq_spec (r q : α) (capacity : Int) :
    rateMatrix r q capacity = specRateMatrix r q capacity := by
  funext a b
  exact rateMatrix_apply r q capacity a b

/-- Every row of the rate matrix sums to zero. -/
theorem rateMatrix_row_sum (r q : α) (capacity : Int) (a : Fin (capacity + 1).toNat) :
    Finset.sum Finset.univ (fun b => rateMatrix r q capacity a b) = 0 := by
  have ha := a.isLt
  have hsplit : ∀ b : Fin (capacity + 1).toNat, rateMatrix r q capacity a b
      = (if b = a then
            -((if 0 < (a : Nat) then r else 0) + (if ((a : Nat) : Int) < capacity then q else 0))
          else 0)
        + ((if (b : Nat) + 1 = a then r else 0)
        + (if (b : Nat) = a + 1 then q else 0)) := by
    intro b
    have hb := b.isLt
    rw [rateMatrix_apply]
    unfold specRate
    by_cases c1 : b = a
    · subst c1
      have c2 : ¬ ((b : Nat) + 1 = b) := by omega
      have c3 : ¬ ((b : Nat) = b + 1) := by omega
      rw [if_pos rfl, if_pos rfl, if_neg c2, if_neg c3, add_zero, add_zero]
    · have c1n : ¬ ((b : Nat) = a) := fun e => c1 (Fin.ext e)
      rw [if_neg c1n, if_neg c1, zero_add]
      by_cases c2 : (b : Nat) + 1 = a
      · have c3 : ¬ ((b : Nat) = a + 1) := by omega
        rw [if_neg c3, add_zero, if_pos c2, if_pos c2]
      · have e2 : (if (b : Nat) + 1 = a then r else (0 : α)) = 0 := if_neg c2
        rw [if_neg c2, e2, zero_add]
        by_cases c3 : (b : Nat) = a + 1
        · have c4 : ((a : Nat) : Int) < capacity := by omega
          rw [if_pos ⟨c3, c4⟩, if_pos c3]
        · have c4 : ¬ ((b : Nat) = a + 1 ∧ ((a : Nat) : Int) < capacity) := fun e => c3 e.1
          rw [if_neg c4, if_neg c3]
  have h1 : Finset.sum Finset.univ (fun b : Fin (capacity + 1).toNat =>
      if b = a then
        -((if 0 < (a : Nat) then r else 0) + (if ((a : Nat) : Int) < capacity then q else 0))
      else 0)
      = -((if 0 < (a : Nat) then r else 0) + (if ((a : Nat) : Int) < capacity then q else 0)) := by
    rw [Finset.sum_ite_eq' Finset.univ a, if_pos (Finset.mem_univ a)]
  have h2 : Finset.sum Finset.univ (fun b : Fin (capacity + 1).toNat =>
      if (b : Nat) + 1 = a then r else 0) = if 0 < (a : Nat) then r else 0 := by
    by_cases c : 0 < (a : Nat)
    · rw [if_pos c, Finset.sum_eq_single (⟨(a : Nat) - 1, by omega⟩ : Fin (capacity + 1).toNat)]
      · rw [if_pos (by show (a : Nat) - 1 + 1 = a; omega)]
      · intro b _ hb
        have : ¬ ((b : Nat) + 1 = a) := by
          intro e
          apply hb
          apply Fin.ext
          show (b : Nat) = (a : Nat) - 1
          omega
        rw [if_neg this]
      · intro hx
        exact absurd (Finset.mem_univ _) hx
    · rw [if_neg c]
      apply Finset.sum_eq_zero
      intro b _
      have : ¬ ((b : Nat) + 1 = a) := by omega
      rw [if_neg this]
  have h3 : Finset.sum Finset.univ (fun b : Fin (capacity + 1).toNat =>
      if (b : Nat) = a + 1 then q else 0) = if ((a : Nat) : Int) < capacity then q else 0 := by
    by_cases c : ((a : Nat) : Int) < capacity
    · rw [if_pos c, Finset.sum_eq_single (⟨(a : Nat) + 1, by omega⟩ : Fin (capacity + 1).toNat)]
      · rw [if_pos rfl]
      · intro b _ hb
        have : ¬ ((b : Nat) = a + 1) := by
          intro e
          apply hb
          apply Fin.ext
          exact e
        rw [if_neg this]
      · intro hx
        exact absurd (Finset.mem_univ _) hx
    · rw [if_neg c]
      apply Finset.sum_eq_zero
      intro b _
      have hb := b.isLt
      have : ¬ ((b : Nat) = a + 1) := by omega
      rw [if_neg this]
  simp only [hsplit]
  rw [Finset.sum_add_distrib, Finset.sum_add_distrib, h1, h2, h3]
  ring

/-- With non-negative rates the coefficients of the rate matrix off the diagonal are
non-negative. -/
theorem rateMatrix_offdiag_nonneg (r q : α) (hr : 0 ≤ r) (hq : 0 ≤ q) (capacity : Int)
    (a b : Fin (capacity + 1).toNat) (hab : a ≠ b) : 0 ≤ rateMatrix r q capacity a b := by
  rw [rateMatrix_apply]
  unfold specRate
  have hne : ¬ ((b : Nat) = a) := fun e => hab (Fin.ext e.symm)
  rw [if_neg hne]
  split_ifs <;> first | exact hr | exact hq | exact le_refl _

end Rates

section LossSum

variable {α : Type} [LinearOrderedField α] [FloorRing α]

/-- The conversion to `int` of a whole number of minutes is that number. -/
theorem static_cast_int_natCast (n : Nat) : static_cast_int ((n : Nat) : α) = (n : Int) := by
  unfold static_cast_int
  rw [if_pos (Nat.cast_nonneg n), Int.floor_natCast]

/-- For a step of `n` whole minutes the slot the code computes in `int` arithmetic is the
slot `⌊(s · d) / 30⌋ mod 48` of the specification. -/
theorem timeSlotOf_natCast (s n : Nat) :
    timeSlotOf (s : Int) ((n : Nat) : α) = specSlot s ((n : Nat) : α) := by
  unfold timeSlotOf specSlot
  rw [static_cast_int_natCast]
  have h1 : ((s : α) * (n : α)) / 30 = ((s * n : Nat) : α) / ((30 : Nat) : α) := by
    push_cast; rfl
  have h2 : (0 : α) ≤ ((s * n : Nat) : α) / ((30 : Nat) : α) :=
    div_nonneg (Nat.cast_nonneg _) (Nat.cast_nonneg _)
  rw [h1, ← Int.natCast_floor_eq_floor h2, Nat.floor_div_eq_div]
  have h3 : Int.tdiv ((s : Int) * (n : Int)) 30 = ((s * n / 30 : Nat) : Int) := by
    rw [Int.tdiv_eq_ediv (by positivity) (by decide)]
    push_cast; rfl
  rw [h3, Station.TIME_SLOTS, Int.tmod_eq_emod (by positivity) (by decide)]

/-- The slot of a step is one of the 48 slots. -/
theorem specSlot_range (s : Nat) (d : α) : 0 ≤ specSlot s d ∧ specSlot s d < 48 := by
  unfold specSlot
  constructor
  · exact Int.emod_nonneg _ (by decide)
  · exact Int.emod_lt_of_pos _ (by decide)

/-- The number of steps for a step length of `n` whole minutes is `1440 / n`. -/
theorem timeSteps_natCast (n : Nat) : (timeSteps ((n : Nat) : α)).toNat = 1440 / n := by
  unfold timeSteps static_cast_int
  have h1 : ((24 : α) * 60) / (n : α) = ((1440 : Nat) : α) / (n : α) := by
    push_cast; norm_num
  have h2 : (0 : α) ≤ ((1440 : Nat) : α) / (n : α) :=
    div_nonneg (Nat.cast_nonneg _) (Nat.cast_nonneg _)
  rw [h1, if_pos h2, ← Int.natCast_floor_eq_floor h2, Nat.floor_div_eq_div]
  exact Int.toNat_natCast _

/-- The two-decimal value of a whole number is that number. -/
theorem quantize_intCast (m : Int) : quantize ((m : Int) : α) = (m : α) := by
  unfold quantize
  have h : ((m : Int) : α) * 100 = ((m * 100 : Int) : α) := by push_cast; rfl
  rw [h, std_round_intCast]
  push_cast
  field_simp

/-- A step of a positive whole number of minutes separates the slots. -/
theorem slotsSeparated_natCast (n : Nat) (hn : 0 < n) : SlotsSeparated ((n : Nat) : α) := by
  intro t t' _ _ _ _ h
  have e : ∀ u : Int, ((u + 1 : Int) : α) * ((n : Nat) : α) = (((u + 1) * (n : Int) : Int) : α) := by
    intro u; push_cast; rfl
  rw [e, e, quantize_intCast, quantize_intCast] at h
  have h2 : (t + 1) * (n : Int) = (t' + 1) * (n : Int) := Int.cast_injective h
  have hn2 : (n : Int) ≠ 0 := by omega
  have h3 := mul_right_cancel₀ hn2 h2
  omega

/-- The cache of a calculator just constructed is sound: it is empty. -/
theorem cacheSound_new (mexp : MatrixFunction α) (station : Station α) (capacity : Int)
    (d p h : α) : CacheSound mexp station capacity d (UDFCalculator.new p h) := by
  intro t _ _ M hM
  exact Option.noConfusion hM

/-- On a sound cache with separated slots, the call of `calculateTransitionMatrix` for a
slot returns the matrix function of `R * deltaTime` for that slot, hit or miss, and leaves
the cache sound. -/
theorem calculateTransitionMatrix_sound (mexp : MatrixFunction α) (station : Station α)
    (capacity : Int) (d : α) (calculator : UDFCalculator α) (hsep : SlotsSeparated d)
    (hs : CacheSound mexp station capacity d calculator) (t : Int) (h0 : 0 ≤ t) (h1 : t < 48) :
    (calculateTransitionMatrix mexp calculator (station.getRentalRate t)
        (station.getReturnRate t) capacity (((t + 1 : Int) : α) * d)).1
      = mexp _ ((((t + 1 : Int) : α) * d) •
          rateMatrix (station.getRentalRate t) (station.getReturnRate t) capacity) ∧
    CacheSound mexp station capacity d
      (calculateTransitionMatrix mexp calculator (station.getRentalRate t)
        (station.getReturnRate t) capacity (((t + 1 : Int) : α) * d)).2 := by
  cases hc : calculator.transitionMatrixCache
      (cacheKey (station.getRentalRate t) (station.getReturnRate t) capacity
        (((t + 1 : Int) : α) * d)) with
  | some M =>
    rw [calculateTransitionMatrix_hit mexp calculator _ _ capacity _ M hc]
    exact ⟨hs t h0 h1 M hc, hs⟩
  | none =>
    rw [calculateTransitionMatrix_miss mexp calculator _ _ capacity _ hc]
    refine ⟨rfl, ?_⟩
    intro t' h0' h1' M hM
    by_cases e : t' = t
    · subst e
      have hM2 : Function.update calculator.transitionMatrixCache
          (cacheKey (station.getRentalRate t') (station.getReturnRate t') capacity
            (((t' + 1 : Int) : α) * d))
          (some (mexp _ ((((t' + 1 : Int) : α) * d) •
            rateMatrix (station.getRentalRate t') (station.getReturnRate t') capacity)
              : MatrixXd α capacity))
          (cacheKey (station.getRentalRate t') (station.getReturnRate t') capacity
            (((t' + 1 : Int) : α) * d)) = some M := hM
      rw [Function.update_same] at hM2
      exact (Option.some.inj hM2).symm
    · have hne : cacheKey (station.getRentalRate t') (station.getReturnRate t') capacity
            (((t' + 1 : Int) : α) * d)
          ≠ cacheKey (station.getRentalRate t) (station.getReturnRate t) capacity
            (((t + 1 : Int) : α) * d) := by
        intro hk
        have hk2 := congrArg CacheKey.deltaTime hk
        exact e (hsep t' t h0' h1' h0 h1 hk2)
      have hM2 : Function.update calculator.transitionMatrixCache
          (cacheKey (station.getRentalRate t) (station.getReturnRate t) capacity
            (((t + 1 : Int) : α) * d))
          (some (mexp _ ((((t + 1 : Int) : α) * d) •
            rateMatrix (station.getRentalRate t) (station.getReturnRate t) capacity)
              : MatrixXd α capacity))
          (cacheKey (station.getRentalRate t') (station.getReturnRate t') capacity
            (((t' + 1 : Int) : α) * d)) = some M := hM
      rw [Function.update_noteq hne] at hM2
      exact hs t' h0' h1' M hM2

/-- The loop of `calculateUDF` after `k` passes, for a step of `n` whole minutes on a
calculator with a sound cache: the cumulative matrix is the product of the first `k` step
matrices of the specification, `udf` is the sum of the first `k` terms, the penalties are
unchanged and the cache is still sound. -/
theorem udfFold_spec (mexp : MatrixFunction α) (station : Station α) (capacity : Int)
    (n : Nat) (hn : 0 < n) (p h : α) (row first last : Fin (capacity + 1).toNat)
    (calculator : UDFCalculator α) (hp : calculator.penaltyRenter = p)
    (hh : calculator.penaltyReturner = h)
    (hs : CacheSound mexp station capacity ((n : Nat) : α) calculator) (k : Nat) :
    ((List.range k).foldl
        (fun s (step : Nat) => udfStep mexp station ((n : Nat) : α) row first last s (step : Int))
        { transitionProb := 1, udf := 0, calculator := calculator }).transitionProb
      = specCumulative mexp station capacity ((n : Nat) : α) k ∧
    ((List.range k).foldl
        (fun s (step : Nat) => udfStep mexp station ((n : Nat) : α) row first last s (step : Int))
        { transitionProb := 1, udf := 0, calculator := calculator }).udf
      = Finset.sum (Finset.range k) (fun s =>
          (specCumulative mexp station capacity ((n : Nat) : α) (s + 1) row first
              * station.getRentalRate (specSlot s ((n : Nat) : α)) * p
            + specCumulative mexp station capacity ((n : Nat) : α) (s + 1) row last
              * station.getReturnRate (specSlot s ((n : Nat) : α)) * h) * ((n : Nat) : α)) ∧
    ((List.range k).foldl
        (fun s (step : Nat) => udfStep mexp station ((n : Nat) : α) row first last s (step : Int))
        { transitionProb := 1, udf := 0, calculator := calculator }).calculator.penaltyRenter
      = p ∧
    ((List.range k).foldl
        (fun s (step : Nat) => udfStep mexp station ((n : Nat) : α) row first last s (step : Int))
        { transitionProb := 1, udf := 0, calculator := calculator }).calculator.penaltyReturner
      = h ∧
    CacheSound mexp station capacity ((n : Nat) : α)
      ((List.range k).foldl
        (fun s (step : Nat) => udfStep mexp station ((n : Nat) : α) row first last s (step : Int))
        { transitionProb := 1, udf := 0, calculator := calculator }).calculator := by
  induction k with
  | zero => exact ⟨rfl, by simp, hp, hh, hs⟩
  | succ k ih =>
    obtain ⟨hT, hU, hP, hH, hS⟩ := ih
    rw [List.range_succ, List.foldl_append, List.foldl_cons, List.foldl_nil]
    generalize (List.range k).foldl
        (fun s (step : Nat) => udfStep mexp station ((n : Nat) : α) row first last s (step : Int))
        { transitionProb := 1, udf := 0, calculator := calculator } = S at hT hU hP hH hS ⊢
    obtain ⟨t0, t1⟩ := specSlot_range k ((n : Nat) : α)
    obtain ⟨hM, hS2⟩ := calculateTransitionMatrix_sound mexp station capacity ((n : Nat) : α)
      S.calculator (slotsSeparated_natCast n hn) hS (specSlot k ((n : Nat) : α)) t0 t1
    obtain ⟨hP2, hH2⟩ := calculateTransitionMatrix_penalties mexp S.calculator
      (station.getRentalRate (specSlot k ((n : Nat) : α)))
      (station.getReturnRate (specSlot k ((n : Nat) : α))) capacity
      (((specSlot k ((n : Nat) : α) + 1 : Int) : α) * ((n : Nat) : α))
    simp only [udfStep, timeSlotOf_natCast]
    rw [rateMatrix_eq_spec] at hM
    refine ⟨?_, ?_, ?_, ?_, hS2⟩
    · rw [hM, hT]; rfl
    · rw [Finset.sum_range_succ, ← hU, hM, hT, hP2, hH2, hP, hH]; rfl
    · rw [hP2, hP]
    · rw [hH2, hH]

/-- The coefficient of the specification at indices inside the matrix. -/
theorem entry_eq {capacity : Int} (M : MatrixXd α capacity) (i j : Int)
    (hi : 0 ≤ i ∧ i ≤ capacity) (hj : 0 ≤ j ∧ j ≤ capacity) :
    entry M i j = M ⟨i.toNat, by omega⟩ ⟨j.toNat, by omega⟩ := by
  unfold entry
  rw [dif_pos ⟨hi, hj⟩]

/-- For every matrix function in the place of the exponential, a calculator with a sound
cache and a step of `n > 0` whole minutes, `calculateUDF` is the loss sum of the
specification. -/
theorem calculateUDF_eq_specUDF (mexp : MatrixFunction α) (station : Station α)
    (calculator : UDFCalculator α) (initialInventory : Int) (n : Nat) (hn : 0 < n)
    (hs : CacheSound mexp station station.getCapacity ((n : Nat) : α) calculator)
    (h0 : 0 ≤ initialInventory) (h1 : initialInventory ≤ station.getCapacity) :
    (calculateUDF mexp calculator station initialInventory ((n : Nat) : α)).1
      = specUDF mexp calculator.penaltyRenter calculator.penaltyReturner station
          initialInventory n := by
  have hg : ¬ (initialInventory < 0 ∨ initialInventory > station.getCapacity) := by omega
  have hC : 0 ≤ station.getCapacity := le_trans h0 h1
  unfold calculateUDF
  rw [dif_neg hg]
  unfold udfLoop
  dsimp only
  rw [timeSteps_natCast]
  rw [(udfFold_spec mexp station station.getCapacity n hn _ _ _ _ _ calculator rfl rfl hs
    (1440 / n)).2.1]
  unfold specUDF
  refine Finset.sum_congr rfl ?_
  intro s _
  unfold specTerm
  rw [entry_eq _ initialInventory 0 ⟨h0, h1⟩ ⟨le_refl _, hC⟩,
    entry_eq _ initialInventory station.getCapacity ⟨h0, h1⟩ ⟨hC, le_refl _⟩]
  rfl

/-- C8. With the exact matrix exponential over the reals, a calculator just constructed,
an inventory in `[0, C]` and a discretization level of `n > 0` whole minutes that divides
`1440`, `calculateUDF` is the sum over the steps `s = 0, ..., 1440/n - 1` of
`(Π_s[I0][0] · rentalRate_s · penaltyRenter + Π_s[I0][C] · returnRate_s · penaltyReturner) · n`
with `slot_s = ⌊s·n/30⌋ mod 48`, `P_s = exp(R(rentalRate_s, returnRate_s, C) · (slot_s+1) · n)`
for the generator matrix `R` of the specification, and `Π_s = P_0 · ... · P_s`; the number
of steps is exactly `1440 / n`. -/
theorem calculateUDF_loss_sum (station : Station ℝ) (penaltyRenter penaltyReturner : ℝ)
    (initialInventory : Int) (n : Nat) (hn : 0 < n) (hdvd : n ∣ 1440)
    (h0 : 0 ≤ initialInventory) (h1 : initialInventory ≤ station.getCapacity) :
    (calculateUDF (fun _ A => NormedSpace.exp ℝ A)
        (UDFCalculator.new penaltyRenter penaltyReturner) station initialInventory
        ((n : Nat) : ℝ)).1
      = specUDF (fun _ A => NormedSpace.exp ℝ A) penaltyRenter penaltyReturner station
          initialInventory n ∧
    ((1440 / n : Nat) : ℝ) = 1440 / ((n : Nat) : ℝ) := by
  constructor
  · exact calculateUDF_eq_specUDF _ station (UDFCalculator.new penaltyRenter penaltyReturner)
      initialInventory n hn (cacheSound_new _ station _ _ _ _) h0 h1
  · rw [Nat.cast_div hdvd (by exact_mod_cast hn.ne')]
    norm_num

/-- Witness of C8: the station of the scenario, penalties `(1, 1)`, inventory `1` and a
step of `30` minutes. -/
theorem calculateUDF_loss_sum_witness :
    (0 < 30 ∧ 30 ∣ 1440 ∧ (0 : Int) ≤ 1 ∧
      (1 : Int) ≤ (scenarioStation : Station ℝ).getCapacity) ∧
    ((calculateUDF (fun _ A => NormedSpace.exp ℝ A) (UDFCalculator.new 1 1)
        (scenarioStation : Station ℝ) 1 ((30 : Nat) : ℝ)).1
      = specUDF (fun _ A => NormedSpace.exp ℝ A) 1 1 (scenarioStation : Station ℝ) 1 30 ∧
    ((1440 / 30 : Nat) : ℝ) = 1440 / ((30 : Nat) : ℝ)) :=
  ⟨⟨by decide, by decide, by decide, by decide⟩,
    calculateUDF_loss_sum scenarioStation 1 1 1 30 (by decide) (by decide) (by decide)
      (by decide)⟩

end LossSum

section Exponential

/-- Each coefficient of the exponential of a real matrix is the sum of the coefficients of
the terms `B^k / k!` of the exponential series. -/
theorem exp_entry_hasSum {n : ℕ} (B : Matrix (Fin n) (Fin n) ℝ) (i j : Fin n) :
    HasSum (fun k : ℕ => ((k.factorial : ℝ)⁻¹) * (B ^ k) i j) (NormedSpace.exp ℝ B i j) := by
  letI : SeminormedRing (Matrix (Fin n) (Fin n) ℝ) := Matrix.linftyOpSemiNormedRing
  letI : NormedRing (Matrix (Fin n) (Fin n) ℝ) := Matrix.linftyOpNormedRing
  letI : NormedAlgebra ℝ (Matrix (Fin n) (Fin n) ℝ) := Matrix.linftyOpNormedAlgebra
  have h := NormedSpace.exp_series_hasSum_exp' (𝕂 := ℝ) B
  have h2 := Pi.hasSum.1 (Pi.hasSum.1 h i) j
  simpa using h2

/-- The powers of a matrix with non-negative coefficients have non-negative
coefficients. -/
theorem pow_entry_nonneg {n : ℕ} (B : Matrix (Fin n) (Fin n) ℝ) (hB : ∀ i j, 0 ≤ B i j)
    (k : ℕ) : ∀ i j, 0 ≤ (B ^ k) i j := by
  induction k with
  | zero =>
    intro i j
    rw [pow_zero, Matrix.one_apply]
    split <;> norm_num
  | succ k ih =>
    intro i j
    rw [pow_succ, Matrix.mul_apply]
    exact Finset.sum_nonneg (fun l _ => mul_nonneg (ih i l) (hB l j))

/-- The exponential of a matrix with non-negative coefficients is, coefficient by
coefficient, at least the identity. -/
theorem exp_entry_nonneg_of_nonneg {n : ℕ} (B : Matrix (Fin n) (Fin n) ℝ)
    (hB : ∀ i j, 0 ≤ B i j) (i j : Fin n) :
    (1 : Matrix (Fin n) (Fin n) ℝ) i j ≤ NormedSpace.exp ℝ B i j := by
  have h := exp_entry_hasSum B i j
  have := le_hasSum h 0 (fun k _ => mul_nonneg (by positivity) (pow_entry_nonneg B hB k i j))
  simpa using this

/-- The exponential of `c` times the identity is `exp c` times the identity. -/
theorem exp_scalar {n : ℕ} (c : ℝ) :
    NormedSpace.exp ℝ (c • (1 : Matrix (Fin n) (Fin n) ℝ)) = Real.exp c • (1 : Matrix (Fin n) (Fin n) ℝ) := by
  have h1 : c • (1 : Matrix (Fin n) (Fin n) ℝ) = Matrix.diagonal (fun _ => c) := by
    ext i j; simp [Matrix.diagonal, Matrix.one_apply]
  have h2 : Real.exp c • (1 : Matrix (Fin n) (Fin n) ℝ) = Matrix.diagonal (fun _ => Real.exp c) := by
    ext i j; simp [Matrix.diagonal, Matrix.one_apply]
  rw [h1, h2, Matrix.exp_diagonal, Pi.exp_def, Real.exp_eq_exp_ℝ]

/-- The exponential of a matrix whose coefficients off the diagonal are non-negative is,
coefficient by coefficient, at least a positive multiple of the identity: its coefficients
are non-negative and those on the diagonal are positive. -/
theorem exp_metzler {n : ℕ} (A : Matrix (Fin n) (Fin n) ℝ)
    (hA : ∀ i j, i ≠ j → 0 ≤ A i j) :
    ∃ e : ℝ, 0 < e ∧ ∀ i j, e * (1 : Matrix (Fin n) (Fin n) ℝ) i j ≤ NormedSpace.exp ℝ A i j := by
  let c : ℝ := ∑ i, |A i i|
  let B : Matrix (Fin n) (Fin n) ℝ := A + c • 1
  have hB : ∀ i j, 0 ≤ B i j := by
    intro i j
    by_cases hij : i = j
    · subst hij
      have : |A i i| ≤ c := Finset.single_le_sum (f := fun i => |A i i|) (fun _ _ => abs_nonneg _) (Finset.mem_univ i)
      have h2 := neg_abs_le (A i i)
      simp [B, Matrix.add_apply, Matrix.one_apply]
      linarith
    · simp [B, Matrix.add_apply, Matrix.one_apply, hij]
      exact hA i j hij
  have hsplit : A = (-c) • (1 : Matrix (Fin n) (Fin n) ℝ) + B := by
    simp [B]
  have hcomm : Commute ((-c) • (1 : Matrix (Fin n) (Fin n) ℝ)) B :=
    ((Commute.one_left B).smul_left (-c))
  have hexp : NormedSpace.exp ℝ A = Real.exp (-c) • NormedSpace.exp ℝ B := by
    conv_lhs => rw [hsplit]
    rw [Matrix.exp_add_of_commute ℝ _ _ hcomm, exp_scalar]
    simp
  refine ⟨Real.exp (-c), Real.exp_pos _, ?_⟩
  intro i j
  rw [hexp, Matrix.smul_apply, smul_eq_mul]
  exact mul_le_mul_of_nonneg_left (exp_entry_nonneg_of_nonneg B hB i j) (Real.exp_pos _).le

/-- If every row of a matrix sums to zero, so does every row of its positive powers. -/
theorem pow_row_sum {n : ℕ} (A : Matrix (Fin n) (Fin n) ℝ) (hA : ∀ i, ∑ j, A i j = 0)
    (k : ℕ) : ∀ i, ∑ j, (A ^ (k + 1)) i j = 0 := by
  intro i
  have : ∀ j, (A ^ (k + 1)) i j = ∑ l, (A ^ k) i l * A l j := by
    intro j; rw [pow_succ, Matrix.mul_apply]
  simp_rw [this]
  rw [Finset.sum_comm]
  simp_rw [← Finset.mul_sum, hA, mul_zero, Finset.sum_const_zero]

/-- If every row of a matrix sums to zero, every row of its exponential sums to one. -/
theorem exp_row_sum {n : ℕ} (A : Matrix (Fin n) (Fin n) ℝ) (hA : ∀ i, ∑ j, A i j = 0)
    (i : Fin n) : ∑ j, NormedSpace.exp ℝ A i j = 1 := by
  have h : HasSum (fun k : ℕ => ∑ j, ((k.factorial : ℝ)⁻¹) * (A ^ k) i j)
      (∑ j, NormedSpace.exp ℝ A i j) :=
    hasSum_sum (fun j _ => exp_entry_hasSum A i j)
  have h2 : HasSum (fun k : ℕ => ∑ j, ((k.factorial : ℝ)⁻¹) * (A ^ k) i j) 1 := by
    have h0 : (∑ j, (((0 : ℕ).factorial : ℝ)⁻¹) * (A ^ 0) i j) = 1 := by
      simp [Matrix.one_apply]
    rw [← h0]
    apply hasSum_single 0
    intro k hk
    obtain ⟨m, rfl⟩ := Nat.exists_eq_succ_of_ne_zero hk
    rw [← Finset.mul_sum, pow_row_sum A hA m i, mul_zero]
  exact h.unique h2

end Exponential

section NonNegative

/-- Non-negative rates in the 48 slots give a non-negative rate at every `int`. -/
theorem getRentalRate_nonneg (station : Station ℝ)
    (hr : ∀ t : Int, 0 ≤ t → t < 48 → 0 ≤ station.getRentalRate t) (t : Int) :
    0 ≤ station.getRentalRate t := by
  by_cases h : 0 ≤ t ∧ t < 48
  · exact hr t h.1 h.2
  · exact le_of_eq (if_neg h).symm

/-- Non-negative rates in the 48 slots give a non-negative rate at every `int`. -/
theorem getReturnRate_nonneg (station : Station ℝ)
    (hq : ∀ t : Int, 0 ≤ t → t < 48 → 0 ≤ station.getReturnRate t) (t : Int) :
    0 ≤ station.getReturnRate t := by
  by_cases h : 0 ≤ t ∧ t < 48
  · exact hq t h.1 h.2
  · exact le_of_eq (if_neg h).symm

/-- The slot of a step is never negative when the discretization level is not. -/
theorem timeSlotOf_nonneg (k : Nat) (d : ℝ) (hd : 0 ≤ d) : 0 ≤ timeSlotOf (k : Int) d := by
  unfold timeSlotOf
  apply Int.tmod_nonneg
  apply Int.tdiv_nonneg
  · apply mul_nonneg (Int.natCast_nonneg k)
    unfold static_cast_int
    rw [if_pos hd]
    exact Int.floor_nonneg.2 hd
  · decide

/-- The exact exponential of `R * deltaTime` has non-negative coefficients when the rates
and the elapsed time are non-negative. -/
theorem exp_rateMatrix_nonneg (r q : ℝ) (hr : 0 ≤ r) (hq : 0 ≤ q) (capacity : Int) (dt : ℝ)
    (hdt : 0 ≤ dt) (i j : Fin (capacity + 1).toNat) :
    0 ≤ NormedSpace.exp ℝ (dt • rateMatrix r q capacity) i j := by
  obtain ⟨e, he, hle⟩ := exp_metzler (dt • rateMatrix r q capacity) (by
    intro a b hab
    rw [Matrix.smul_apply, smul_eq_mul]
    exact mul_nonneg hdt (rateMatrix_offdiag_nonneg r q hr hq capacity a b hab))
  refine le_trans ?_ (hle i j)
  rw [Matrix.one_apply]
  split
  · rw [mul_one]; exact he.le
  · rw [mul_zero]

/-- With the exact exponential, non-negative rates and elapsed time, and a cache of
non-negative matrices, `calculateTransitionMatrix` returns a non-negative matrix and
leaves a cache of non-negative matrices. -/
theorem calculateTransitionMatrix_nonneg (calculator : UDFCalculator ℝ)
    (hc : NonnegCache calculator) (r q : ℝ) (hr : 0 ≤ r) (hq : 0 ≤ q) (capacity : Int)
    (dt : ℝ) (hdt : 0 ≤ dt) :
    (∀ i j, 0 ≤ (calculateTransitionMatrix (fun _ A => NormedSpace.exp ℝ A) calculator
        r q capacity dt).1 i j) ∧
    NonnegCache (calculateTransitionMatrix (fun _ A => NormedSpace.exp ℝ A) calculator
        r q capacity dt).2 := by
  cases h : calculator.transitionMatrixCache (cacheKey r q capacity dt) with
  | some M =>
    rw [calculateTransitionMatrix_hit _ calculator r q capacity dt M h]
    exact ⟨hc (cacheKey r q capacity dt) M h, hc⟩
  | none =>
    rw [calculateTransitionMatrix_miss _ calculator r q capacity dt h]
    refine ⟨exp_rateMatrix_nonneg r q hr hq capacity dt hdt, ?_⟩
    intro k M hM
    have hM2 : Function.update calculator.transitionMatrixCache (cacheKey r q capacity dt)
        (some (NormedSpace.exp ℝ (dt • rateMatrix r q capacity) : MatrixXd ℝ capacity)) k
        = some M := hM
    by_cases e : k = cacheKey r q capacity dt
    · subst e
      rw [Function.update_same] at hM2
      rw [← Option.some.inj hM2]
      exact exp_rateMatrix_nonneg r q hr hq capacity dt hdt
    · rw [Function.update_noteq e] at hM2
      exact hc k M hM2

/-- The product of two matrices with non-negative coefficients has non-negative
coefficients. -/
theorem mul_entry_nonneg {n : ℕ} (A B : Matrix (Fin n) (Fin n) ℝ) (hA : ∀ i j, 0 ≤ A i j)
    (hB : ∀ i j, 0 ≤ B i j) (i j : Fin n) : 0 ≤ (A * B) i j := by
  rw [Matrix.mul_apply]
  exact Finset.sum_nonneg (fun l _ => mul_nonneg (hA i l) (hB l j))

/-- With the exact exponential, non-negative rates, penalties and discretization level,
the loop of `calculateUDF` keeps the cumulative matrix, `udf` and the cached matrices
non-negative. -/
theorem udfFold_nonneg (station : Station ℝ) (d : ℝ) (hd : 0 ≤ d)
    (hr : ∀ t : Int, 0 ≤ t → t < 48 → 0 ≤ station.getRentalRate t)
    (hq : ∀ t : Int, 0 ≤ t → t < 48 → 0 ≤ station.getReturnRate t)
    {capacity : Int} (row first last : Fin (capacity + 1).toNat) (steps : List Nat) :
    ∀ s : UDFLoopState ℝ capacity,
      (∀ i j, 0 ≤ s.transitionProb i j) → 0 ≤ s.udf →
      0 ≤ s.calculator.penaltyRenter → 0 ≤ s.calculator.penaltyReturner →
      NonnegCache s.calculator →
      0 ≤ (steps.foldl (fun s (step : Nat) =>
        udfStep (fun _ A => NormedSpace.exp ℝ A) station d row first last s (step : Int))
        s).udf := by
  induction steps with
  | nil => intro s _ hu _ _ _; exact hu
  | cons k rest ih =>
    intro s hT hu hp hh hc
    have ht := timeSlotOf_nonneg k d hd
    have hdt : (0 : ℝ) ≤ ((timeSlotOf (k : Int) d + 1 : Int) : ℝ) * d :=
      mul_nonneg (by exact_mod_cast (by omega : (0 : Int) ≤ timeSlotOf (k : Int) d + 1)) hd
    obtain ⟨hP, hc2⟩ := calculateTransitionMatrix_nonneg s.calculator hc
      (station.getRentalRate (timeSlotOf (k : Int) d))
      (station.getReturnRate (timeSlotOf (k : Int) d))
      (getRentalRate_nonneg station hr _) (getReturnRate_nonneg station hq _) capacity _ hdt
    obtain ⟨hp2, hh2⟩ := calculateTransitionMatrix_penalties (fun _ A => NormedSpace.exp ℝ A)
      s.calculator (station.getRentalRate (timeSlotOf (k : Int) d))
      (station.getReturnRate (timeSlotOf (k : Int) d)) capacity
      (((timeSlotOf (k : Int) d + 1 : Int) : ℝ) * d)
    have hT2 := mul_entry_nonneg _ _ hT hP
    apply ih
    · exact hT2
    · show 0 ≤ s.udf + _
      apply add_nonneg hu
      apply mul_nonneg _ hd
      apply add_nonneg
      · exact mul_nonneg (mul_nonneg (hT2 _ _) (getRentalRate_nonneg station hr _))
          (by rw [hp2]; exact hp)
      · exact mul_nonneg (mul_nonneg (hT2 _ _) (getReturnRate_nonneg station hq _))
          (by rw [hh2]; exact hh)
    · show 0 ≤ (calculateTransitionMatrix _ _ _ _ _ _).2.penaltyRenter
      rw [hp2]; exact hp
    · show 0 ≤ (calculateTransitionMatrix _ _ _ _ _ _).2.penaltyReturner
      rw [hh2]; exact hh
    · exact hc2

/-- C6. With the matrix exponential taken exactly over the reals, a calculator just
constructed with non-negative penalties, a station with non-negative rental and return
rates in all slots, a discretization level `> 0` and an inventory in `[0, C]` (so the
capacity `C` is at least `0`), `calculateUDF` returns a non-negative number. -/
theorem calculateUDF_nonneg (station : Station ℝ) (penaltyRenter penaltyReturner : ℝ)
    (initialInventory : Int) (discretizationLevel : ℝ)
    (hr : ∀ t : Int, 0 ≤ t → t < 48 → 0 ≤ station.getRentalRate t)
    (hq : ∀ t : Int, 0 ≤ t → t < 48 → 0 ≤ station.getReturnRate t)
    (hp : 0 ≤ penaltyRenter) (hh : 0 ≤ penaltyReturner) (hd : 0 < discretizationLevel)
    (h0 : 0 ≤ initialInventory) (h1 : initialInventory ≤ station.getCapacity) :
    0 ≤ (calculateUDF (fun _ A => NormedSpace.exp ℝ A)
      (UDFCalculator.new penaltyRenter penaltyReturner) station initialInventory
      discretizationLevel).1 := by
  have hg : ¬ (initialInventory < 0 ∨ initialInventory > station.getCapacity) := by omega
  unfold calculateUDF
  rw [dif_neg hg]
  refine udfFold_nonneg station discretizationLevel hd.le hr hq _ _ _ _ _ ?_ (le_refl _) hp hh ?_
  · intro i j
    show 0 ≤ (1 : Matrix _ _ ℝ) i j
    rw [Matrix.one_apply]
    split <;> norm_num
  · intro k M hM
    exact Option.noConfusion hM

/-- Witness of C6: the station of the scenario, penalties `(1, 1)`, inventory `1` and the
step `30`. -/
theorem calculateUDF_nonneg_witness :
    ((∀ t : Int, 0 ≤ t → t < 48 → 0 ≤ (scenarioStation : Station ℝ).getRentalRate t) ∧
     (∀ t : Int, 0 ≤ t → t < 48 → 0 ≤ (scenarioStation : Station ℝ).getReturnRate t) ∧
     (0 : ℝ) ≤ 1 ∧ (0 : ℝ) < 30 ∧ (0 : Int) ≤ 1 ∧
     (1 : Int) ≤ (scenarioStation : Station ℝ).getCapacity) ∧
    0 ≤ (calculateUDF (fun _ A => NormedSpace.exp ℝ A) (UDFCalculator.new 1 1)
      (scenarioStation : Station ℝ) 1 30).1 :=
  have hr : ∀ t : Int, 0 ≤ t → t < 48 → 0 ≤ (scenarioStation : Station ℝ).getRentalRate t := by
    intro t h0 h1
    rw [(scenarioStation_rates t h0 h1).1]
    norm_num
  have hq : ∀ t : Int, 0 ≤ t → t < 48 → 0 ≤ (scenarioStation : Station ℝ).getReturnRate t := by
    intro t h0 h1
    rw [(scenarioStation_rates t h0 h1).2]
  ⟨⟨hr, hq, by norm_num, by norm_num, by decide, by decide⟩,
    calculateUDF_nonneg scenarioStation 1 1 1 30 hr hq (by norm_num) (by norm_num)
      (by norm_num) (by decide) (by decide)⟩

end NonNegative

section Scenario

end Scenario

section Steps

variable {α : Type} [LinearOrderedField α] [FloorRing α]

/-- For a positive discretization level the number of steps is the floor of
`(24 * 60) / discretizationLevel`. -/
theorem timeSteps_eq_floor (d : α) (hd : 0 < d) : timeSteps d = ⌊(24 * 60 : α) / d⌋ := by
  unfold timeSteps static_cast_int
  rw [if_pos (div_nonneg (by norm_num) hd.le)]

/-- C14, the claim fails: for the discretization level `7` the loop of `calculateUDF`
makes `205` passes, and the ceiling of `1440 / 7` is `206`. -/
theorem timeSteps_seven_not_ceiling :
    timeSteps (7 : ℚ) = 205 ∧ ⌈((24 : ℚ) * 60) / 7⌉ = 206 ∧
    timeSteps (7 : ℚ) ≠ ⌈((24 : ℚ) * 60) / 7⌉ := by
  have h1 : timeSteps (7 : ℚ) = 205 := by
    rw [timeSteps_eq_floor 7 (by norm_num), Int.floor_eq_iff]
    constructor <;> norm_num
  have h2 : ⌈((24 : ℚ) * 60) / 7⌉ = 206 := by
    rw [Int.ceil_eq_iff]
    constructor <;> norm_num
  refine ⟨h1, h2, ?_⟩
  rw [h1, h2]
  decide

/-- C14 as amended. For every discretization level `d > 0` the number `timeSteps` of
passes of the loop of `calculateUDF` is the floor of `(24 * 60) / d` (the conversion to
`int` drops the fraction); it is the ceiling exactly when `(24 * 60) / d` is a whole
number. -/
theorem timeSteps_truncates (d : α) (hd : 0 < d) :
    timeSteps d = ⌊(24 * 60 : α) / d⌋ ∧
    (List.range (timeSteps d).toNat).length = ⌊(24 * 60 : α) / d⌋.toNat ∧
    (timeSteps d = ⌈(24 * 60 : α) / d⌉ ↔ ∃ m : Int, (24 * 60 : α) / d = (m : α)) := by
  have h := timeSteps_eq_floor d hd
  refine ⟨h, by rw [List.length_range, h], ?_⟩
  rw [h]
  constructor
  · intro e
    refine ⟨⌊(24 * 60 : α) / d⌋, le_antisymm ?_ (Int.floor_le _)⟩
    rw [e]
    exact Int.le_ceil _
  · rintro ⟨m, hm⟩
    rw [hm, Int.floor_intCast, Int.ceil_intCast]

/-- Witness of C14 as amended, at the discretization level `7`. -/
theorem timeSteps_truncates_witness :
    (0 : ℚ) < 7 ∧
    (timeSteps (7 : ℚ) = ⌊(24 * 60 : ℚ) / 7⌋ ∧
     (List.range (timeSteps (7 : ℚ)).toNat).length = ⌊(24 * 60 : ℚ) / 7⌋.toNat ∧
     (timeSteps (7 : ℚ) = ⌈(24 * 60 : ℚ) / 7⌉ ↔ ∃ m : Int, (24 * 60 : ℚ) / 7 = (m : ℚ))) :=
  ⟨by norm_num, timeSteps_truncates 7 (by norm_num)⟩

/-- C15, the code at the failing input: for the discretization level `0.5` and step `60`
(minute `30` of the day) `calculateUDF` reads the rates of slot `0`, while
`⌊(60 · 0.5) / 30⌋ mod 48` is slot `1`. -/
theorem timeSlot_fractional_step :
    timeSlotOf (60 : Int) (1 / 2 : ℚ) = 0 ∧ specSlot 60 (1 / 2 : ℚ) = 1 := by
  have h0 : ⌊(1 / 2 : ℚ)⌋ = 0 := by
    rw [Int.floor_eq_iff]; constructor <;> norm_num
  have h1 : ⌊(((60 : Nat) : ℚ) * (1 / 2)) / 30⌋ = 1 := by
    rw [Int.floor_eq_iff]; constructor <;> norm_num
  constructor
  · unfold timeSlotOf static_cast_int
    rw [if_pos (by norm_num), h0]
    decide
  · unfold specSlot
    rw [h1]
    decide

end Steps

section Generator

variable {α : Type} [LinearOrderedField α] [FloorRing α]

/-- C17. For a capacity `C ≥ 0` the rate matrix `R` that `calculateTransitionMatrix`
builds has `C + 1` rows and columns, `R[i][i-1] = rentalRate` for `i > 0`,
`R[i][i+1] = returnRate` for `i < C`,
`R[i][i] = -((rentalRate if i > 0 else 0) + (returnRate if i < C else 0))`, every other
coefficient `0`, and every row sums to zero. -/
theorem rateMatrix_tridiagonal (rentalRate returnRate : α) (capacity : Int)
    (hC : 0 ≤ capacity) :
    (Fintype.card (Fin (capacity + 1).toNat) : Int) = capacity + 1 ∧
    (∀ i j : Fin (capacity + 1).toNat, (i : Nat) = j + 1 →
      rateMatrix rentalRate returnRate capacity i j = rentalRate) ∧
    (∀ i j : Fin (capacity + 1).toNat, (j : Nat) = i + 1 →
      rateMatrix rentalRate returnRate capacity i j = returnRate) ∧
    (∀ i : Fin (capacity + 1).toNat,
      rateMatrix rentalRate returnRate capacity i i
        = -((if 0 < (i : Nat) then rentalRate else 0)
            + (if ((i : Nat) : Int) < capacity then returnRate else 0))) ∧
    (∀ i j : Fin (capacity + 1).toNat, (i : Nat) ≠ j → (i : Nat) ≠ j + 1 → (j : Nat) ≠ i + 1 →
      rateMatrix rentalRate returnRate capacity i j = 0) ∧
    (∀ i : Fin (capacity + 1).toNat,
      Finset.sum Finset.univ (fun j => rateMatrix rentalRate returnRate capacity i j) = 0) := by
  refine ⟨?_, ?_, ?_, ?_, ?_, rateMatrix_row_sum rentalRate returnRate capacity⟩
  · rw [Fintype.card_fin]
    omega
  · intro i j h
    rw [rateMatrix_apply]
    unfold specRate
    rw [if_neg (by omega), if_pos h.symm]
  · intro i j h
    have hj := j.isLt
    rw [rateMatrix_apply]
    unfold specRate
    rw [if_neg (by omega), if_neg (by omega), if_pos ⟨h, by omega⟩]
  · intro i
    rw [rateMatrix_apply]
    unfold specRate
    rw [if_pos rfl]
  · intro i j h1 h2 h3
    rw [rateMatrix_apply]
    unfold specRate
    rw [if_neg (fun e => h1 e.symm), if_neg (fun e => h2 e.symm), if_neg (fun e => h3 e.1)]

/-- Witness of C17: rental rate `2`, return rate `3`, capacity `2`. -/
theorem rateMatrix_tridiagonal_witness :
    (0 : Int) ≤ 2 ∧
    (∀ i : Fin ((2 : Int) + 1).toNat,
      Finset.sum Finset.univ (fun j => rateMatrix (2 : ℚ) 3 2 i j) = 0) :=
  ⟨by decide, (rateMatrix_tridiagonal (2 : ℚ) 3 2 (by decide)).2.2.2.2.2⟩

end Generator

section Identity

/-- The exponential of a matrix whose coefficients off the diagonal are non-negative is,
off the diagonal, at least a positive multiple of the matrix. -/
theorem exp_metzler_offdiag {n : ℕ} (A : Matrix (Fin n) (Fin n) ℝ)
    (hA : ∀ i j, i ≠ j → 0 ≤ A i j) :
    ∃ e : ℝ, 0 < e ∧ ∀ i j, i ≠ j → e * A i j ≤ NormedSpace.exp ℝ A i j := by
  let c : ℝ := Finset.sum Finset.univ (fun i => |A i i|)
  let B : Matrix (Fin n) (Fin n) ℝ := A + c • 1
  have hB : ∀ i j, 0 ≤ B i j := by
    intro i j
    by_cases hij : i = j
    · subst hij
      have : |A i i| ≤ c := Finset.single_le_sum (f := fun i => |A i i|)
        (fun _ _ => abs_nonneg _) (Finset.mem_univ i)
      have h2 := neg_abs_le (A i i)
      simp [B, Matrix.add_apply, Matrix.one_apply]
      linarith
    · simp [B, Matrix.add_apply, Matrix.one_apply, hij]
      exact hA i j hij
  have hsplit : A = (-c) • (1 : Matrix (Fin n) (Fin n) ℝ) + B := by
    simp [B]
  have hcomm : Commute ((-c) • (1 : Matrix (Fin n) (Fin n) ℝ)) B :=
    ((Commute.one_left B).smul_left (-c))
  have hexp : NormedSpace.exp ℝ A = Real.exp (-c) • NormedSpace.exp ℝ B := by
    conv_lhs => rw [hsplit]
    rw [Matrix.exp_add_of_commute ℝ _ _ hcomm, exp_scalar]
    simp
  refine ⟨Real.exp (-c), Real.exp_pos _, ?_⟩
  intro i j hij
  rw [hexp, Matrix.smul_apply, smul_eq_mul]
  refine mul_le_mul_of_nonneg_left ?_ (Real.exp_pos _).le
  have h := le_hasSum (exp_entry_hasSum B i j) 1
    (fun k _ => mul_nonneg (by positivity) (pow_entry_nonneg B hB k i j))
  have hBA : B i j = A i j := by
    simp [B, Matrix.add_apply, Matrix.one_apply, hij]
  simpa [hBA] using h

variable {α : Type} [LinearOrderedField α] [FloorRing α]

/-- With both rates zero the rate matrix is the zero matrix. -/
theorem rateMatrix_zero (capacity : Int) : rateMatrix (0 : α) 0 capacity = 0 := by
  funext a b
  rw [rateMatrix_apply]
  unfold specRate
  split_ifs <;> simp

/-- If the matrix function sends the zero matrix to the identity and every call served so
far under one key had `R * deltaTime = 0`, the cache holds nothing or the identity under
that key. -/
theorem afterCalls_identity (mexp : MatrixFunction α) (hexp : ∀ n, mexp n 0 = 1)
    (r q : α) (capacity : Int) (dt : α) (earlier : List (TransitionCall α)) :
    ∀ calculator : UDFCalculator α,
      (calculator.transitionMatrixCache (cacheKey r q capacity dt) = none ∨
        calculator.transitionMatrixCache (cacheKey r q capacity dt)
          = some (1 : MatrixXd α capacity)) →
      (∀ b ∈ earlier, b.capacity = capacity → quantize b.rentalRate = quantize r →
        quantize b.returnRate = quantize q → quantize b.deltaTime = quantize dt →
        b.deltaTime • rateMatrix b.rentalRate b.returnRate b.capacity = 0) →
      ((afterCalls mexp calculator earlier).transitionMatrixCache (cacheKey r q capacity dt)
          = none ∨
        (afterCalls mexp calculator earlier).transitionMatrixCache (cacheKey r q capacity dt)
          = some (1 : MatrixXd α capacity)) := by
  induction earlier with
  | nil => intro calculator h _; exact h
  | cons b rest ih =>
    intro calculator h hb
    apply ih
    · obtain ⟨r1, q1, c1, dt1⟩ := b
      show (calculateTransitionMatrix mexp calculator r1 q1 c1 dt1).2.transitionMatrixCache
            (cacheKey r q capacity dt) = none ∨
          (calculateTransitionMatrix mexp calculator r1 q1 c1 dt1).2.transitionMatrixCache
            (cacheKey r q capacity dt) = some (1 : MatrixXd α capacity)
      by_cases hk : c1 = capacity ∧ quantize r1 = quantize r ∧ quantize q1 = quantize q ∧
          quantize dt1 = quantize dt
      · obtain ⟨hc, hr, hq, hdt⟩ := hk
        subst hc
        have hzero := hb ⟨r1, q1, c1, dt1⟩ (List.mem_cons_self _ _) rfl hr hq hdt
        right
        rw [← lookup_congr _ r1 q1 dt1 r q dt c1 hr hq hdt, calculateTransitionMatrix_stores]
        congr 1
        cases hc0 : calculator.transitionMatrixCache (cacheKey r1 q1 c1 dt1) with
        | some M =>
          rw [calculateTransitionMatrix_hit mexp calculator r1 q1 c1 dt1 M hc0]
          rw [lookup_congr _ r1 q1 dt1 r q dt c1 hr hq hdt] at hc0
          rcases h with h | h
          · rw [h] at hc0; exact Option.noConfusion hc0
          · rw [h] at hc0; exact (Option.some.inj hc0).symm
        | none =>
          rw [calculateTransitionMatrix_miss mexp calculator r1 q1 c1 dt1 hc0]
          show mexp _ (dt1 • rateMatrix r1 q1 c1) = 1
          rw [show dt1 • rateMatrix r1 q1 c1 = 0 from hzero]
          exact hexp _
      · have hne : cacheKey r q capacity dt ≠ cacheKey r1 q1 c1 dt1 := by
          intro e
          simp only [cacheKey, CacheKey.mk.injEq] at e
          exact hk ⟨e.2.2.1.symm, e.1.symm, e.2.1.symm, e.2.2.2.symm⟩
        rcases h with h | h
        · left
          rw [← Option.not_isSome_iff_eq_none]
          intro hs
          rcases calculateTransitionMatrix_origin mexp calculator r1 q1 c1 dt1 _ hs with h1 | h1
          · rw [h] at h1; exact Bool.noConfusion h1
          · exact hne h1
        · right
          exact calculateTransitionMatrix_keeps mexp calculator r1 q1 c1 dt1 _ _ h
    · intro b' hb'
      exact hb b' (List.mem_cons_of_mem _ hb')

/-- If the matrix function sends the zero matrix to the identity, a call with
`R * deltaTime = 0` returns the identity on every calculator on which the earlier calls
under the same key also had `R * deltaTime = 0`. -/
theorem calculateTransitionMatrix_identity (mexp : MatrixFunction α)
    (hexp : ∀ n, mexp n 0 = 1) (p h r q : α) (capacity : Int) (dt : α)
    (earlier : List (TransitionCall α))
    (hzero : dt • rateMatrix r q capacity = 0)
    (hearlier : ∀ b ∈ earlier, b.capacity = capacity → quantize b.rentalRate = quantize r →
      quantize b.returnRate = quantize q → quantize b.deltaTime = quantize dt →
      b.deltaTime • rateMatrix b.rentalRate b.returnRate b.capacity = 0) :
    (calculateTransitionMatrix mexp (afterCalls mexp (UDFCalculator.new p h) earlier)
      r q capacity dt).1 = 1 := by
  rcases afterCalls_identity mexp hexp r q capacity dt earlier (UDFCalculator.new p h)
    (Or.inl rfl) hearlier with h1 | h1
  · rw [calculateTransitionMatrix_miss mexp _ r q capacity dt h1]
    show mexp _ (dt • rateMatrix r q capacity) = 1
    rw [hzero]
    exact hexp _
  · rw [calculateTransitionMatrix_hit mexp _ r q capacity dt _ h1]

end Identity

section IdentityClaims

/-- A non-negative number below `0.005` has the two-decimal value `0`. -/
theorem quantize_small {α : Type} [LinearOrderedField α] [FloorRing α] (x : α)
    (h0 : 0 ≤ x) (h1 : x < 1 / 200) : quantize x = 0 := by
  have hf : ⌊x * 100 + 1 / 2⌋ = 0 := by
    rw [Int.floor_eq_iff]
    constructor
    · have : (0 : α) ≤ x * 100 := mul_nonneg h0 (by norm_num)
      simp only [Int.cast_zero]
      linarith
    · simp only [Int.cast_zero]
      linarith
  unfold quantize std_round
  rw [if_pos (mul_nonneg h0 (by norm_num)), hf]
  simp

/-- With a positive rental rate, return rate `0`, capacity `1` and a positive elapsed
time, the exact exponential of `R * deltaTime` is not the identity: the probability of
going from one bike to none is positive. -/
theorem exp_rateMatrix_ne_one (r dt : ℝ) (hr : 0 < r) (hdt : 0 < dt) :
    NormedSpace.exp ℝ (dt • rateMatrix r 0 1) ≠ (1 : MatrixXd ℝ 1) := by
  obtain ⟨e, he, hle⟩ := exp_metzler_offdiag (dt • rateMatrix r 0 1) (by
    intro a b hab
    rw [Matrix.smul_apply, smul_eq_mul]
    exact mul_nonneg hdt.le (rateMatrix_offdiag_nonneg r 0 hr.le (le_refl _) 1 a b hab))
  intro h
  have hne : (⟨1, by decide⟩ : Fin ((1 : Int) + 1).toNat) ≠ ⟨0, by decide⟩ := by
    intro e
    exact absurd (Fin.mk.inj e) (by decide)
  have h10 := hle ⟨1, by decide⟩ ⟨0, by decide⟩ hne
  rw [h, Matrix.one_apply_ne hne, Matrix.smul_apply, smul_eq_mul, rateMatrix_apply] at h10
  have hs : specRate r 0 1 1 0 = r := by
    unfold specRate
    rw [if_neg (by decide), if_pos (by decide)]
  have hs2 : specRate r (0 : ℝ) 1 ((⟨1, by decide⟩ : Fin ((1 : Int) + 1).toNat) : Nat)
      ((⟨0, by decide⟩ : Fin ((1 : Int) + 1).toNat) : Nat) = r := hs
  rw [hs2] at h10
  have hpos : 0 < e * (dt * r) := mul_pos he (mul_pos hdt hr)
  linarith

/-- C11, the claim fails: on the calculator that has served the call
`(rentalRate 1, returnRate 0, capacity 1, deltaTime 0.004)`, the call with the same rates
and capacity and `deltaTime = 0` finds the key `(1.00, 0.00, 1, 0.00)` in the cache and
returns the matrix `exp(R * 0.004)`, which is not the identity. -/
theorem zero_time_after_short_call_not_identity :
    (calculateTransitionMatrix (fun _ A => NormedSpace.exp ℝ A)
      (calculateTransitionMatrix (fun _ A => NormedSpace.exp ℝ A) UDFCalculator.default
        1 0 1 (4 / 1000)).2 1 0 1 0).1 ≠ (1 : MatrixXd ℝ 1) := by
  have hq : quantize (4 / 1000 : ℝ) = quantize (0 : ℝ) := by
    rw [quantize_small (4 / 1000 : ℝ) (by norm_num) (by norm_num),
      quantize_small (0 : ℝ) (le_refl _) (by norm_num)]
  have h := calculateTransitionMatrix_repeat (fun _ A => NormedSpace.exp ℝ A)
    UDFCalculator.default [] 1 0 (4 / 1000) 1 0 0 1 rfl rfl hq
  simp only [afterCalls, List.foldl_nil] at h
  rw [h, calculateTransitionMatrix_miss _ UDFCalculator.default 1 0 1 (4 / 1000) rfl]
  exact exp_rateMatrix_ne_one 1 (4 / 1000) (by norm_num) (by norm_num)

/-- C11 as amended. With the exact exponential, for any rates and any capacity `C ≥ 0`,
`calculateTransitionMatrix` called with `deltaTime = 0` returns the identity matrix on a
calculator that has served, since its construction, no call with the same capacity and
the same two-decimal values of the rates and of `deltaTime` other than calls that had
`deltaTime = 0` or both rates `0` themselves; in particular on a new calculator. -/
theorem transition_zero_time_identity (penaltyRenter penaltyReturner : ℝ)
    (rentalRate returnRate : ℝ) (capacity : Int) (_hC : 0 ≤ capacity)
    (earlier : List (TransitionCall ℝ))
    (hearlier : ∀ b ∈ earlier, b.capacity = capacity →
      quantize b.rentalRate = quantize rentalRate →
      quantize b.returnRate = quantize returnRate →
      quantize b.deltaTime = quantize (0 : ℝ) →
      b.deltaTime = 0 ∨ (b.rentalRate = 0 ∧ b.returnRate = 0)) :
    (calculateTransitionMatrix (fun _ A => NormedSpace.exp ℝ A)
        (afterCalls (fun _ A => NormedSpace.exp ℝ A)
          (UDFCalculator.new penaltyRenter penaltyReturner) earlier)
        rentalRate returnRate capacity 0).1 = 1 ∧
    (calculateTransitionMatrix (fun _ A => NormedSpace.exp ℝ A)
        (UDFCalculator.new penaltyRenter penaltyReturner)
        rentalRate returnRate capacity 0).1 = 1 := by
  have hexp : ∀ n, (fun (n : ℕ) (A : Matrix (Fin n) (Fin n) ℝ) => NormedSpace.exp ℝ A) n 0 = 1 :=
    fun n => NormedSpace.exp_zero
  constructor
  · refine calculateTransitionMatrix_identity _ hexp _ _ _ _ capacity 0 earlier
      (zero_smul _ _) ?_
    intro b hb hc hr hq hdt
    rcases hearlier b hb hc hr hq hdt with h0 | ⟨h1, h2⟩
    · rw [h0, zero_smul]
    · rw [h1, h2, rateMatrix_zero, smul_zero]
  · exact calculateTransitionMatrix_identity _ hexp _ _ _ _ capacity 0 []
      (zero_smul _ _) (fun b hb => absurd hb (List.not_mem_nil b))

/-- Witness of C11 as amended: rates `(1, 0)`, capacity `1`, after a call with the other
capacity `2`. -/
theorem transition_zero_time_identity_witness :
    ((0 : Int) ≤ 1 ∧
     ∀ b ∈ [({ rentalRate := 1, returnRate := 0, capacity := 2, deltaTime := 4 / 1000 } :
          TransitionCall ℝ)],
      b.capacity = 1 → quantize b.rentalRate = quantize (1 : ℝ) →
      quantize b.returnRate = quantize (0 : ℝ) → quantize b.deltaTime = quantize (0 : ℝ) →
      b.deltaTime = 0 ∨ (b.rentalRate = 0 ∧ b.returnRate = 0)) ∧
    (calculateTransitionMatrix (fun _ A => NormedSpace.exp ℝ A)
        (afterCalls (fun _ A => NormedSpace.exp ℝ A) (UDFCalculator.new (1 : ℝ) 1)
          [{ rentalRate := 1, returnRate := 0, capacity := 2, deltaTime := 4 / 1000 }])
        1 0 1 0).1 = 1 :=
  have hb : ∀ b ∈ [({ rentalRate := 1, returnRate := 0, capacity := 2, deltaTime := 4 / 1000 } :
          TransitionCall ℝ)],
      b.capacity = 1 → quantize b.rentalRate = quantize (1 : ℝ) →
      quantize b.returnRate = quantize (0 : ℝ) → quantize b.deltaTime = quantize (0 : ℝ) →
      b.deltaTime = 0 ∨ (b.rentalRate = 0 ∧ b.returnRate = 0) := by
    intro b hb hc
    rw [List.mem_singleton.1 hb] at hc
    exact absurd hc (by decide)
  ⟨⟨by decide, hb⟩, (transition_zero_time_identity 1 1 1 0 1 (by decide) _ hb).1⟩

/-- C16, the claim fails: on the calculator that has served the call
`(rentalRate 0.001, returnRate 0, capacity 1, deltaTime 1)`, the call with both rates `0`
and the same capacity and `deltaTime` finds the key `(0.00, 0.00, 1, 1.00)` in the cache
and returns the matrix `exp(R(0.001, 0) * 1)`, which is not the identity. -/
theorem zero_rates_after_small_rate_not_identity :
    (calculateTransitionMatrix (fun _ A => NormedSpace.exp ℝ A)
      (calculateTransitionMatrix (fun _ A => NormedSpace.exp ℝ A) UDFCalculator.default
        (1 / 1000) 0 1 1).2 0 0 1 1).1 ≠ (1 : MatrixXd ℝ 1) := by
  have hq : quantize (1 / 1000 : ℝ) = quantize (0 : ℝ) := by
    rw [quantize_small (1 / 1000 : ℝ) (by norm_num) (by norm_num),
      quantize_small (0 : ℝ) (le_refl _) (by norm_num)]
  have h := calculateTransitionMatrix_repeat (fun _ A => NormedSpace.exp ℝ A)
    UDFCalculator.default [] (1 / 1000) 0 1 0 0 1 1 hq rfl rfl
  simp only [afterCalls, List.foldl_nil] at h
  rw [h, calculateTransitionMatrix_miss _ UDFCalculator.default (1 / 1000) 0 1 1 rfl]
  exact exp_rateMatrix_ne_one (1 / 1000) 1 (by norm_num) (by norm_num)

/-- C16 as amended. With the exact exponential, for `rentalRate = returnRate = 0`, any
capacity `C ≥ 0` and any `deltaTime`, `calculateTransitionMatrix` returns the identity
matrix on a calculator that has served, since its construction, no call with the same
capacity, rates with the two-decimal value `0.00` and the same two-decimal `deltaTime`
other than calls that had both rates `0` or `deltaTime = 0` themselves; in particular on
a new calculator. -/
theorem transition_zero_rates_identity (penaltyRenter penaltyReturner : ℝ)
    (capacity : Int) (_hC : 0 ≤ capacity) (deltaTime : ℝ)
    (earlier : List (TransitionCall ℝ))
    (hearlier : ∀ b ∈ earlier, b.capacity = capacity →
      quantize b.rentalRate = quantize (0 : ℝ) →
      quantize b.returnRate = quantize (0 : ℝ) →
      quantize b.deltaTime = quantize deltaTime →
      (b.rentalRate = 0 ∧ b.returnRate = 0) ∨ b.deltaTime = 0) :
    (calculateTransitionMatrix (fun _ A => NormedSpace.exp ℝ A)
        (afterCalls (fun _ A => NormedSpace.exp ℝ A)
          (UDFCalculator.new penaltyRenter penaltyReturner) earlier)
        0 0 capacity deltaTime).1 = 1 ∧
    (calculateTransitionMatrix (fun _ A => NormedSpace.exp ℝ A)
        (UDFCalculator.new penaltyRenter penaltyReturner)
        0 0 capacity deltaTime).1 = 1 := by
  have hexp : ∀ n, (fun (n : ℕ) (A : Matrix (Fin n) (Fin n) ℝ) => NormedSpace.exp ℝ A) n 0 = 1 :=
    fun n => NormedSpace.exp_zero
  have hz : deltaTime • rateMatrix (0 : ℝ) 0 capacity = 0 := by
    rw [rateMatrix_zero, smul_zero]
  constructor
  · refine calculateTransitionMatrix_identity _ hexp _ _ _ _ capacity deltaTime earlier hz ?_
    intro b hb hc hr hq hdt
    rcases hearlier b hb hc hr hq hdt with ⟨h1, h2⟩ | h0
    · rw [h1, h2, rateMatrix_zero, smul_zero]
    · rw [h0, zero_smul]
  · exact calculateTransitionMatrix_identity _ hexp _ _ _ _ capacity deltaTime [] hz
      (fun b hb => absurd hb (List.not_mem_nil b))

/-- Witness of C16 as amended: capacity `1`, `deltaTime = 30`, after a call with the other
capacity `2`. -/
theorem transition_zero_rates_identity_witness :
    ((0 : Int) ≤ 1 ∧
     ∀ b ∈ [({ rentalRate := 1 / 1000, returnRate := 0, capacity := 2, deltaTime := 30 } :
          TransitionCall ℝ)],
      b.capacity = 1 → quantize b.rentalRate = quantize (0 : ℝ) →
      quantize b.returnRate = quantize (0 : ℝ) → quantize b.deltaTime = quantize (30 : ℝ) →
      (b.rentalRate = 0 ∧ b.returnRate = 0) ∨ b.deltaTime = 0) ∧
    (calculateTransitionMatrix (fun _ A => NormedSpace.exp ℝ A)
        (afterCalls (fun _ A => NormedSpace.exp ℝ A) (UDFCalculator.new (1 : ℝ) 1)
          [{ rentalRate := 1 / 1000, returnRate := 0, capacity := 2, deltaTime := 30 }])
        0 0 1 30).1 = 1 :=
  have hb : ∀ b ∈ [({ rentalRate := 1 / 1000, returnRate := 0, capacity := 2, deltaTime := 30 } :
          TransitionCall ℝ)],
      b.capacity = 1 → quantize b.rentalRate = quantize (0 : ℝ) →
      quantize b.returnRate = quantize (0 : ℝ) → quantize b.deltaTime = quantize (30 : ℝ) →
      (b.rentalRate = 0 ∧ b.returnRate = 0) ∨ b.deltaTime = 0 := by
    intro b hb hc
    rw [List.mem_singleton.1 hb] at hc
    exact absurd hc (by decide)
  ⟨⟨by decide, hb⟩, (transition_zero_rates_identity 1 1 1 (by decide) 30 _ hb).1⟩

end IdentityClaims

section RowStochastic

/-- Every row of the exact exponential of `R * deltaTime` sums to one, for all rates and
every elapsed time. -/
theorem exp_rateMatrix_row_sum (r q : ℝ) (capacity : Int) (dt : ℝ)
    (i : Fin (capacity + 1).toNat) :
    Finset.sum Finset.univ (fun j => NormedSpace.exp ℝ (dt • rateMatrix r q capacity) i j)
      = 1 := by
  apply exp_row_sum
  intro a
  simp_rw [Matrix.smul_apply, smul_eq_mul]
  rw [← Finset.mul_sum, rateMatrix_row_sum, mul_zero]

/-- If the rows of two matrices sum to one, so do the rows of their product. -/
theorem mul_row_sum {n : ℕ} (A B : Matrix (Fin n) (Fin n) ℝ)
    (hA : ∀ i, Finset.sum Finset.univ (fun j => A i j) = 1)
    (hB : ∀ i, Finset.sum Finset.univ (fun j => B i j) = 1) (i : Fin n) :
    Finset.sum Finset.univ (fun j => (A * B) i j) = 1 := by
  simp_rw [Matrix.mul_apply]
  rw [Finset.sum_comm]
  simp_rw [← Finset.mul_sum, hB, mul_one]
  exact hA i

/-- With the exact exponential and a cache of matrices whose rows sum to one,
`calculateTransitionMatrix` returns a matrix whose rows sum to one, hit or miss, and
leaves such a cache. -/
theorem calculateTransitionMatrix_row_sum (calculator : UDFCalculator ℝ)
    (hc : RowStochasticCache calculator) (r q : ℝ) (capacity : Int) (dt : ℝ) :
    (∀ i, Finset.sum Finset.univ (fun j =>
      (calculateTransitionMatrix (fun _ A => NormedSpace.exp ℝ A) calculator
        r q capacity dt).1 i j) = 1) ∧
    RowStochasticCache (calculateTransitionMatrix (fun _ A => NormedSpace.exp ℝ A) calculator
        r q capacity dt).2 := by
  cases h : calculator.transitionMatrixCache (cacheKey r q capacity dt) with
  | some M =>
    rw [calculateTransitionMatrix_hit _ calculator r q capacity dt M h]
    exact ⟨hc (cacheKey r q capacity dt) M h, hc⟩
  | none =>
    rw [calculateTransitionMatrix_miss _ calculator r q capacity dt h]
    refine ⟨exp_rateMatrix_row_sum r q capacity dt, ?_⟩
    intro k M hM
    have hM2 : Function.update calculator.transitionMatrixCache (cacheKey r q capacity dt)
        (some (NormedSpace.exp ℝ (dt • rateMatrix r q capacity) : MatrixXd ℝ capacity)) k
        = some M := hM
    by_cases e : k = cacheKey r q capacity dt
    · subst e
      rw [Function.update_same] at hM2
      rw [← Option.some.inj hM2]
      exact exp_rateMatrix_row_sum r q capacity dt
    · rw [Function.update_noteq e] at hM2
      exact hc k M hM2

/-- With the exact exponential, the loop of `calculateUDF` keeps the rows of the
cumulative matrix and of the cached matrices summing to one. -/
theorem udfFold_row_sum (station : Station ℝ) (d : ℝ)
    {capacity : Int} (row first last : Fin (capacity + 1).toNat) (steps : List Nat) :
    ∀ s : UDFLoopState ℝ capacity,
      (∀ i, Finset.sum Finset.univ (fun j => s.transitionProb i j) = 1) →
      RowStochasticCache s.calculator →
      (∀ i, Finset.sum Finset.univ (fun j =>
        (steps.foldl (fun s (step : Nat) =>
          udfStep (fun _ A => NormedSpace.exp ℝ A) station d row first last s (step : Int))
          s).transitionProb i j) = 1) ∧
      RowStochasticCache (steps.foldl (fun s (step : Nat) =>
          udfStep (fun _ A => NormedSpace.exp ℝ A) station d row first last s (step : Int))
          s).calculator := by
  induction steps with
  | nil => intro s hT hc; exact ⟨hT, hc⟩
  | cons k rest ih =>
    intro s hT hc
    obtain ⟨hP, hc2⟩ := calculateTransitionMatrix_row_sum s.calculator hc
      (station.getRentalRate (timeSlotOf (k : Int) d))
      (station.getReturnRate (timeSlotOf (k : Int) d)) capacity
      (((timeSlotOf (k : Int) d + 1 : Int) : ℝ) * d)
    exact ih _ (mul_row_sum _ _ hT hP) hc2

/-- C18. With the exact exponential over the reals and a calculator just constructed, for
every capacity `C ≥ 0`, all rates and every `deltaTime`, each row of the matrix that
`calculateTransitionMatrix` returns sums to `1`; and for every station of capacity `C`,
every discretization level and every `k`, each row of the cumulative product
`transitionProb` of `calculateUDF` sums to `1` after `k` passes of its loop. -/
theorem transition_row_stochastic (penaltyRenter penaltyReturner : ℝ)
    (rentalRate returnRate : ℝ) (capacity : Int) (_hC : 0 ≤ capacity) (deltaTime : ℝ)
    (station : Station ℝ) (discretizationLevel : ℝ)
    (row first last : Fin (capacity + 1).toNat) (k : Nat) :
    (∀ i, Finset.sum Finset.univ (fun j =>
      (calculateTransitionMatrix (fun _ A => NormedSpace.exp ℝ A)
        (UDFCalculator.new penaltyRenter penaltyReturner)
        rentalRate returnRate capacity deltaTime).1 i j) = 1) ∧
    (∀ i, Finset.sum Finset.univ (fun j =>
      ((List.range k).foldl (fun s (step : Nat) =>
          udfStep (fun _ A => NormedSpace.exp ℝ A) station discretizationLevel
            row first last s (step : Int))
        { transitionProb := 1, udf := 0,
          calculator := UDFCalculator.new penaltyRenter penaltyReturner }).transitionProb i j)
      = 1) := by
  have hnew : RowStochasticCache (UDFCalculator.new penaltyRenter penaltyReturner) := by
    intro key M hM
    exact Option.noConfusion hM
  constructor
  · exact (calculateTransitionMatrix_row_sum _ hnew rentalRate returnRate capacity deltaTime).1
  · refine (udfFold_row_sum station discretizationLevel row first last (List.range k)
      { transitionProb := 1, udf := 0,
        calculator := UDFCalculator.new penaltyRenter penaltyReturner } ?_ hnew).1
    intro i
    show Finset.sum Finset.univ (fun j => (1 : Matrix _ _ ℝ) i j) = 1
    simp [Matrix.one_apply]

/-- Witness of C18: rates `(2, 3)`, capacity `1`, `deltaTime = 30`, and the station of the
scenario with the step `30` after `48` passes. -/
theorem transition_row_stochastic_witness :
    (0 : Int) ≤ 1 ∧
    (∀ i, Finset.sum Finset.univ (fun j =>
      (calculateTransitionMatrix (fun _ A => NormedSpace.exp ℝ A)
        (UDFCalculator.new (1 : ℝ) 1) 2 3 1 30).1 i j) = 1) :=
  ⟨by decide,
    (transition_row_stochastic 1 1 2 3 1 (by decide) 30 scenarioStation 30
      ⟨1, by decide⟩ ⟨0, by decide⟩ ⟨1, by decide⟩ 48).1⟩

end RowStochastic

section Memoisation

variable {α : Type} [LinearOrderedField α] [FloorRing α]

/-- The function `std::round` moves a number by at most one half. -/
theorem std_round_close (y : α) : |std_round y - y| ≤ 1 / 2 := by
  unfold std_round
  rw [abs_le]
  split
  · have h1 := Int.floor_le (y + 1 / 2)
    have h2 := Int.lt_floor_add_one (y + 1 / 2)
    constructor <;> linarith
  · have h1 := Int.le_ceil (y - 1 / 2)
    have h2 := Int.ceil_lt_add_one (y - 1 / 2)
    constructor <;> linarith

/-- The two-decimal value of a number differs from it by at most `0.005`. -/
theorem quantize_close (x : α) : |quantize x - x| ≤ 1 / 200 := by
  have h := std_round_close (x * 100)
  rw [abs_le] at h ⊢
  unfold quantize
  obtain ⟨h1, h2⟩ := h
  constructor
  · rw [le_sub_iff_add_le, le_div_iff₀ (by norm_num : (0 : α) < 100)]
    linarith
  · rw [sub_le_iff_le_add, div_le_iff₀ (by norm_num : (0 : α) < 100)]
    linarith

/-- For every positive discretization level, two steps of the loop of `calculateUDF`
whose elapsed times have the same two-decimal value are in the same slot: below `1` every
step is in slot `0`, from `1` on the elapsed times of two slots differ by at least `1`. -/
theorem stepsSeparated (d : α) (hd : 0 < d) : StepsSeparated d := by
  intro k k' hq
  by_cases h1 : d < 1
  · have hf : static_cast_int d = 0 := by
      unfold static_cast_int
      rw [if_pos hd.le, Int.floor_eq_iff]
      constructor
      · simpa using hd.le
      · simpa using h1
    unfold timeSlotOf
    rw [hf, mul_zero, mul_zero]
  · by_contra hne
    have hd1 : 1 ≤ d := not_lt.1 h1
    have hc1 := quantize_close (((timeSlotOf (k : Int) d + 1 : Int) : α) * d)
    have hc2 := quantize_close (((timeSlotOf (k' : Int) d + 1 : Int) : α) * d)
    rw [hq] at hc1
    rw [abs_le] at hc1 hc2
    rcases lt_or_gt_of_ne hne with hlt | hgt
    · have hi : ((timeSlotOf (k : Int) d + 1 : Int) : α) + 1
          ≤ ((timeSlotOf (k' : Int) d + 1 : Int) : α) := by
        exact_mod_cast (by omega : timeSlotOf (k : Int) d + 1 + 1 ≤ timeSlotOf (k' : Int) d + 1)
      have hm := mul_le_mul_of_nonneg_right hi hd.le
      nlinarith
    · have hi : ((timeSlotOf (k' : Int) d + 1 : Int) : α) + 1
          ≤ ((timeSlotOf (k : Int) d + 1 : Int) : α) := by
        exact_mod_cast (by omega : timeSlotOf (k' : Int) d + 1 + 1 ≤ timeSlotOf (k : Int) d + 1)
      have hm := mul_le_mul_of_nonneg_right hi hd.le
      nlinarith

/-- The cache of a calculator just constructed is sound for every station: it is
empty. -/
theorem stepCacheSound_new (mexp : MatrixFunction α) (station : Station α) (capacity : Int)
    (d p h : α) : StepCacheSound mexp station capacity d (UDFCalculator.new p h) := by
  intro k M hM
  exact Option.noConfusion hM

/-- On a sound cache with separated steps, the call of `calculateTransitionMatrix` that a
step makes returns the matrix function of `R * deltaTime` for the unquantized arguments of
the step, hit or miss, and leaves the cache sound. -/
theorem calculateTransitionMatrix_stepSound (mexp : MatrixFunction α) (station : Station α)
    (capacity : Int) (d : α) (calculator : UDFCalculator α) (hsep : StepsSeparated d)
    (hs : StepCacheSound mexp station capacity d calculator) (k : Nat) :
    (calculateTransitionMatrix mexp calculator
        (station.getRentalRate (timeSlotOf (k : Int) d))
        (station.getReturnRate (timeSlotOf (k : Int) d)) capacity
        (((timeSlotOf (k : Int) d + 1 : Int) : α) * d)).1
      = mexp _ ((((timeSlotOf (k : Int) d + 1 : Int) : α) * d) •
          rateMatrix (station.getRentalRate (timeSlotOf (k : Int) d))
            (station.getReturnRate (timeSlotOf (k : Int) d)) capacity) ∧
    StepCacheSound mexp station capacity d
      (calculateTransitionMatrix mexp calculator
        (station.getRentalRate (timeSlotOf (k : Int) d))
        (station.getReturnRate (timeSlotOf (k : Int) d)) capacity
        (((timeSlotOf (k : Int) d + 1 : Int) : α) * d)).2 := by
  cases hc : calculator.transitionMatrixCache
      (cacheKey (station.getRentalRate (timeSlotOf (k : Int) d))
        (station.getReturnRate (timeSlotOf (k : Int) d)) capacity
        (((timeSlotOf (k : Int) d + 1 : Int) : α) * d)) with
  | some M =>
    rw [calculateTransitionMatrix_hit mexp calculator _ _ capacity _ M hc]
    exact ⟨hs k M hc, hs⟩
  | none =>
    rw [calculateTransitionMatrix_miss mexp calculator _ _ capacity _ hc]
    refine ⟨rfl, ?_⟩
    intro k' M hM
    by_cases e : timeSlotOf (k' : Int) d = timeSlotOf (k : Int) d
    · rw [e] at hM ⊢
      have hM2 : Function.update calculator.transitionMatrixCache
          (cacheKey (station.getRentalRate (timeSlotOf (k : Int) d))
            (station.getReturnRate (timeSlotOf (k : Int) d)) capacity
            (((timeSlotOf (k : Int) d + 1 : Int) : α) * d))
          (some (mexp _ ((((timeSlotOf (k : Int) d + 1 : Int) : α) * d) •
            rateMatrix (station.getRentalRate (timeSlotOf (k : Int) d))
              (station.getReturnRate (timeSlotOf (k : Int) d)) capacity)
              : MatrixXd α capacity))
          (cacheKey (station.getRentalRate (timeSlotOf (k : Int) d))
            (station.getReturnRate (timeSlotOf (k : Int) d)) capacity
            (((timeSlotOf (k : Int) d + 1 : Int) : α) * d)) = some M := hM
      rw [Function.update_same] at hM2
      exact (Option.some.inj hM2).symm
    · have hne : cacheKey (station.getRentalRate (timeSlotOf (k' : Int) d))
            (station.getReturnRate (timeSlotOf (k' : Int) d)) capacity
            (((timeSlotOf (k' : Int) d + 1 : Int) : α) * d)
          ≠ cacheKey (station.getRentalRate (timeSlotOf (k : Int) d))
            (station.getReturnRate (timeSlotOf (k : Int) d)) capacity
            (((timeSlotOf (k : Int) d + 1 : Int) : α) * d) := by
        intro hk
        exact e (hsep k' k (congrArg CacheKey.deltaTime hk))
      have hM2 : Function.update calculator.transitionMatrixCache
          (cacheKey (station.getRentalRate (timeSlotOf (k : Int) d))
            (station.getReturnRate (timeSlotOf (k : Int) d)) capacity
            (((timeSlotOf (k : Int) d + 1 : Int) : α) * d))
          (some (mexp _ ((((timeSlotOf (k : Int) d + 1 : Int) : α) * d) •
            rateMatrix (station.getRentalRate (timeSlotOf (k : Int) d))
              (station.getReturnRate (timeSlotOf (k : Int) d)) capacity)
              : MatrixXd α capacity))
          (cacheKey (station.getRentalRate (timeSlotOf (k' : Int) d))
            (station.getReturnRate (timeSlotOf (k' : Int) d)) capacity
            (((timeSlotOf (k' : Int) d + 1 : Int) : α) * d)) = some M := hM
      rw [Function.update_noteq hne] at hM2
      exact hs k' M hM2

/-- On a sound cache with separated steps, the loop of `calculateUDF` computes what the
loop with the cache disabled computes, and leaves the penalties as they are and the cache
sound. -/
theorem udfFold_noCache (mexp : MatrixFunction α) (station : Station α) (d : α)
    (hsep : StepsSeparated d) (p h : α)
    {capacity : Int} (row first last : Fin (capacity + 1).toNat) (steps : List Nat) :
    ∀ s : UDFLoopState α capacity,
      s.calculator.penaltyRenter = p → s.calculator.penaltyReturner = h →
      StepCacheSound mexp station capacity d s.calculator →
      (steps.foldl (fun s (step : Nat) =>
          udfStep mexp station d row first last s (step : Int)) s).udf
        = (steps.foldl (fun s (step : Nat) =>
            udfStepNoCache mexp p h station d row first last s (step : Int))
            (s.transitionProb, s.udf)).2 ∧
      (steps.foldl (fun s (step : Nat) =>
          udfStep mexp station d row first last s (step : Int)) s).calculator.penaltyRenter
        = p ∧
      (steps.foldl (fun s (step : Nat) =>
          udfStep mexp station d row first last s (step : Int)) s).calculator.penaltyReturner
        = h ∧
      StepCacheSound mexp station capacity d
        (steps.foldl (fun s (step : Nat) =>
          udfStep mexp station d row first last s (step : Int)) s).calculator := by
  induction steps with
  | nil => intro s hp hh hs; exact ⟨rfl, hp, hh, hs⟩
  | cons k rest ih =>
    intro s hp hh hs
    obtain ⟨hM, hs2⟩ := calculateTransitionMatrix_stepSound mexp station capacity d
      s.calculator hsep hs k
    obtain ⟨hp2, hh2⟩ := calculateTransitionMatrix_penalties mexp s.calculator
      (station.getRentalRate (timeSlotOf (k : Int) d))
      (station.getReturnRate (timeSlotOf (k : Int) d)) capacity
      (((timeSlotOf (k : Int) d + 1 : Int) : α) * d)
    have hstep : udfStepNoCache mexp p h station d row first last
        (s.transitionProb, s.udf) (k : Int)
        = ((udfStep mexp station d row first last s (k : Int)).transitionProb,
           (udfStep mexp station d row first last s (k : Int)).udf) := by
      simp only [udfStepNoCache, udfStep]
      rw [hM, hp2, hh2, hp, hh]
    rw [List.foldl_cons, List.foldl_cons, hstep]
    exact ih (udfStep mexp station d row first last s (k : Int))
      (by show (calculateTransitionMatrix _ _ _ _ _ _).2.penaltyRenter = p; rw [hp2, hp])
      (by show (calculateTransitionMatrix _ _ _ _ _ _).2.penaltyReturner = h; rw [hh2, hh])
      hs2

/-- On a sound cache with separated steps, `calculateUDF` returns what `calculateUDF` with
the cache disabled returns, and leaves the penalties as they are and the cache sound. -/
theorem calculateUDF_noCache (mexp : MatrixFunction α) (station : Station α) (d : α)
    (hsep : StepsSeparated d) (calculator : UDFCalculator α)
    (hs : StepCacheSound mexp station station.getCapacity d calculator)
    (initialInventory : Int) :
    (calculateUDF mexp calculator station initialInventory d).1
      = calculateUDFNoCache mexp calculator.penaltyRenter calculator.penaltyReturner
          station initialInventory d ∧
    (calculateUDF mexp calculator station initialInventory d).2.penaltyRenter
      = calculator.penaltyRenter ∧
    (calculateUDF mexp calculator station initialInventory d).2.penaltyReturner
      = calculator.penaltyReturner ∧
    StepCacheSound mexp station station.getCapacity d
      (calculateUDF mexp calculator station initialInventory d).2 := by
  unfold calculateUDF calculateUDFNoCache
  by_cases hg : initialInventory < 0 ∨ initialInventory > station.getCapacity
  · rw [dif_pos hg, dif_pos hg]
    exact ⟨rfl, rfl, rfl, hs⟩
  · rw [dif_neg hg, dif_neg hg]
    exact udfFold_noCache mexp station d hsep _ _ _ _ _ _
      { transitionProb := 1, udf := 0, calculator := calculator } rfl rfl hs

/-- A sequence of calls of `calculateUDF` for one station and one discretization level
leaves the penalties as they are and a sound cache sound. -/
theorem afterUDFCalls_sound (mexp : MatrixFunction α) (station : Station α) (d : α)
    (hsep : StepsSeparated d) (inventories : List Int) :
    ∀ calculator : UDFCalculator α,
      StepCacheSound mexp station station.getCapacity d calculator →
      (afterUDFCalls mexp calculator station d inventories).penaltyRenter
        = calculator.penaltyRenter ∧
      (afterUDFCalls mexp calculator station d inventories).penaltyReturner
        = calculator.penaltyReturner ∧
      StepCacheSound mexp station station.getCapacity d
        (afterUDFCalls mexp calculator station d inventories) := by
  induction inventories with
  | nil => intro calculator hs; exact ⟨rfl, rfl, hs⟩
  | cons i rest ih =>
    intro calculator hs
    obtain ⟨-, hp, hh, hs2⟩ := calculateUDF_noCache mexp station d hsep calculator hs i
    obtain ⟨hp3, hh3, hs3⟩ := ih _ hs2
    exact ⟨hp3.trans hp, hh3.trans hh, hs3⟩

/-- C19. For a calculator just constructed, one station with capacity `C ≥ 0` and one
discretization level `d > 0`, after any sequence of calls of `calculateUDF` for that
station and level, `calculateUDF(station, I0, d)` returns for every `I0` the value that
the same algorithm returns with the cache disabled and every transition matrix recomputed
as the exact exponential of `R * deltaTime` from the unquantized arguments; and two steps
whose calls have the same cache key have the same rental rate, return rate and elapsed
time. -/
theorem memoisation_transparent (station : Station ℝ) (penaltyRenter penaltyReturner : ℝ)
    (discretizationLevel : ℝ) (hd : 0 < discretizationLevel)
    (_hC : 0 ≤ station.getCapacity) (inventories : List Int) (initialInventory : Int) :
    (calculateUDF (fun _ A => NormedSpace.exp ℝ A)
        (afterUDFCalls (fun _ A => NormedSpace.exp ℝ A)
          (UDFCalculator.new penaltyRenter penaltyReturner) station discretizationLevel
          inventories)
        station initialInventory discretizationLevel).1
      = calculateUDFNoCache (fun _ A => NormedSpace.exp ℝ A) penaltyRenter penaltyReturner
          station initialInventory discretizationLevel ∧
    (∀ k k' : Nat,
      cacheKey (station.getRentalRate (timeSlotOf (k : Int) discretizationLevel))
          (station.getReturnRate (timeSlotOf (k : Int) discretizationLevel))
          station.getCapacity
          (((timeSlotOf (k : Int) discretizationLevel + 1 : Int) : ℝ) * discretizationLevel)
        = cacheKey (station.getRentalRate (timeSlotOf (k' : Int) discretizationLevel))
          (station.getReturnRate (timeSlotOf (k' : Int) discretizationLevel))
          station.getCapacity
          (((timeSlotOf (k' : Int) discretizationLevel + 1 : Int) : ℝ) * discretizationLevel) →
      station.getRentalRate (timeSlotOf (k : Int) discretizationLevel)
          = station.getRentalRate (timeSlotOf (k' : Int) discretizationLevel) ∧
      station.getReturnRate (timeSlotOf (k : Int) discretizationLevel)
          = station.getReturnRate (timeSlotOf (k' : Int) discretizationLevel) ∧
      ((timeSlotOf (k : Int) discretizationLevel + 1 : Int) : ℝ) * discretizationLevel
          = ((timeSlotOf (k' : Int) discretizationLevel + 1 : Int) : ℝ)
              * discretizationLevel) := by
  have hsep := stepsSeparated discretizationLevel hd
  obtain ⟨hp, hh, hs⟩ := afterUDFCalls_sound (fun _ A => NormedSpace.exp ℝ A) station
    discretizationLevel hsep inventories (UDFCalculator.new penaltyRenter penaltyReturner)
    (stepCacheSound_new _ station _ _ _ _)
  constructor
  · rw [(calculateUDF_noCache _ station discretizationLevel hsep _ hs initialInventory).1,
      hp, hh]
    rfl
  · intro k k' hk
    have e := hsep k k' (congrArg CacheKey.deltaTime hk)
    rw [e]
    exact ⟨rfl, rfl, rfl⟩

/-- Witness of C19: the station of the scenario, the fractional step `7.5`, after the
calls for the inventories `0`, `1` and `5`, at inventory `1`. -/
theorem memoisation_transparent_witness :
    ((0 : ℝ) < 15 / 2 ∧ (0 : Int) ≤ (scenarioStation : Station ℝ).getCapacity) ∧
    (calculateUDF (fun _ A => NormedSpace.exp ℝ A)
        (afterUDFCalls (fun _ A => NormedSpace.exp ℝ A)
          (UDFCalculator.new (1 : ℝ) 1) scenarioStation (15 / 2) [0, 1, 5])
        scenarioStation 1 (15 / 2)).1
      = calculateUDFNoCache (fun _ A => NormedSpace.exp ℝ A) 1 1
          (scenarioStation : Station ℝ) 1 (15 / 2) :=
  ⟨⟨by norm_num, by decide⟩,
    (memoisation_transparent scenarioStation 1 1 (15 / 2) (by norm_num) (by decide)
      [0, 1, 5] 1).1⟩

end Memoisation

section Batch

variable {α : Type} [LinearOrderedField α] [FloorRing α]

/-- A station whose checkpoint exists takes the skip branch and changes nothing. -/
theorem processStation_skip (mexp : MatrixFunction α) (render : α → String)
    (canOpen : String → Bool) (d : α) (st : BatchState α) (i : Nat) (station : Station α)
    (h : (st.files (stationResultFile station)).isSome) :
    processStation mexp render canOpen d st i station = (st, Branch.skipped) := by
  unfold processStation
  rw [if_pos h]

/-- A station whose checkpoint does not exist and whose checkpoint file opens is
processed: the checkpoint is written and the slot `i` of both vectors is assigned. -/
theorem processStation_processed (mexp : MatrixFunction α) (render : α → String)
    (canOpen : String → Bool) (d : α) (st : BatchState α) (i : Nat) (station : Station α)
    (h : st.files (stationResultFile station) = none)
    (ho : canOpen (stationResultFile station) = true) :
    processStation mexp render canOpen d st i station
      = ({ files := Function.update st.files (stationResultFile station)
             (some (checkpointText render
               (calculateUDFForAllInventories mexp UDFCalculator.default station d).1)),
           allUDFValues := st.allUDFValues.set i
             (calculateUDFForAllInventories mexp UDFCalculator.default station d).1,
           optimalInventories := st.optimalInventories.set i
             (findOptimalInventory
               (calculateUDFForAllInventories mexp UDFCalculator.default station d).1) },
         Branch.processed) := by
  unfold processStation
  rw [if_neg (by rw [h]; exact Bool.false_ne_true), if_neg (by rw [ho]; exact Bool.noConfusion)]

/-- After one pass of the station loop that did not fail to write, the checkpoint of the
station exists, and so does every file that existed before, with the contents it had. -/
theorem processStation_files (mexp : MatrixFunction α) (render : α → String)
    (canOpen : String → Bool) (d : α) (st : BatchState α) (i : Nat) (station : Station α)
    (hok : (processStation mexp render canOpen d st i station).2 ≠ Branch.writeFailed) :
    ((processStation mexp render canOpen d st i station).1.files
        (stationResultFile station)).isSome ∧
    ∀ (path : String) (text : String), st.files path = some text →
      (processStation mexp render canOpen d st i station).1.files path = some text := by
  by_cases h : (st.files (stationResultFile station)).isSome
  · rw [processStation_skip mexp render canOpen d st i station h]
    exact ⟨h, fun _ _ hp => hp⟩
  · have hn : st.files (stationResultFile station) = none := by
      rw [← Option.not_isSome_iff_eq_none]; exact h
    cases ho : canOpen (stationResultFile station) with
    | false =>
      exfalso
      apply hok
      unfold processStation
      rw [if_neg h, if_pos ho]
    | true =>
      rw [processStation_processed mexp render canOpen d st i station hn ho]
      constructor
      · show (Function.update st.files _ _ _).isSome
        rw [Function.update_same]
        rfl
      · intro path text hp
        show Function.update st.files _ _ path = some text
        have hne : path ≠ stationResultFile station := by
          intro e
          rw [e, hn] at hp
          exact Option.noConfusion hp
        rw [Function.update_noteq hne]
        exact hp

/-- After a run of the station loop in which no write failed, the checkpoint of every
station of the run exists, and every file that existed before still has its contents. -/
theorem stationLoop_files (mexp : MatrixFunction α) (render : α → String)
    (canOpen : String → Bool) (d : α) (stations : List (Station α)) :
    ∀ (i : Nat) (st : BatchState α),
      Branch.writeFailed ∉ (stationLoop mexp render canOpen d stations i st).2 →
      (∀ s ∈ stations,
        ((stationLoop mexp render canOpen d stations i st).1.files
          (stationResultFile s)).isSome) ∧
      ∀ (path : String) (text : String), st.files path = some text →
        (stationLoop mexp render canOpen d stations i st).1.files path = some text := by
  induction stations with
  | nil =>
    intro i st _
    exact ⟨fun s hs => absurd hs (List.not_mem_nil s), fun _ _ hp => hp⟩
  | cons station rest ih =>
    intro i st hok
    have hok1 : (processStation mexp render canOpen d st i station).2 ≠ Branch.writeFailed := by
      intro e
      apply hok
      show Branch.writeFailed ∈ _ :: _
      rw [e]
      exact List.mem_cons_self _ _
    have hok2 : Branch.writeFailed ∉ (stationLoop mexp render canOpen d rest (i + 1)
        (processStation mexp render canOpen d st i station).1).2 := by
      intro e
      apply hok
      exact List.mem_cons_of_mem _ e
    obtain ⟨h1, h2⟩ := processStation_files mexp render canOpen d st i station hok1
    obtain ⟨h3, h4⟩ := ih (i + 1) _ hok2
    constructor
    · intro s hs
      rcases List.mem_cons.1 hs with rfl | hs
      · obtain ⟨text, ht⟩ := Option.isSome_iff_exists.1 h1
        show ((stationLoop mexp render canOpen d rest (i + 1) _).1.files _).isSome
        rw [h4 _ text ht]
        rfl
      · exact h3 s hs
    · intro path text hp
      exact h4 path text (h2 path text hp)

/-- When the checkpoint of every station exists, the station loop takes the skip branch
for every station and changes nothing. -/
theorem stationLoop_all_skipped (mexp : MatrixFunction α) (render : α → String)
    (canOpen : String → Bool) (d : α) (stations : List (Station α)) :
    ∀ (i : Nat) (st : BatchState α),
      (∀ s ∈ stations, (st.files (stationResultFile s)).isSome) →
      stationLoop mexp render canOpen d stations i st
        = (st, List.replicate stations.length Branch.skipped) := by
  induction stations with
  | nil => intro i st _; rfl
  | cons station rest ih =>
    intro i st h
    show (_, _ :: _) = _
    rw [processStation_skip mexp render canOpen d st i station
      (h station (List.mem_cons_self _ _)),
      ih (i + 1) st (fun s hs => h s (List.mem_cons_of_mem _ hs))]
    rfl

/-- C12. Resumability: if a first run of the station loop over a station list completes
without a failed checkpoint write, a second run over the same list, started on the
directory the first run left and on newly resized vectors, takes the skip branch for every
station and leaves the directory, names and contents, exactly as it was. -/
theorem stationLoop_resumable (mexp : MatrixFunction α) (render : α → String)
    (canOpen canOpenAgain : String → Bool) (discretizationLevel : α)
    (stations : List (Station α)) (files : String → Option String)
    (hok : Branch.writeFailed ∉ (stationLoop mexp render canOpen discretizationLevel stations 0
      (BatchState.init files stations.length)).2) :
    (stationLoop mexp render canOpenAgain discretizationLevel stations 0
      (BatchState.init
        (stationLoop mexp render canOpen discretizationLevel stations 0
          (BatchState.init files stations.length)).1.files
        stations.length)).2 = List.replicate stations.length Branch.skipped ∧
    (stationLoop mexp render canOpenAgain discretizationLevel stations 0
      (BatchState.init
        (stationLoop mexp render canOpen discretizationLevel stations 0
          (BatchState.init files stations.length)).1.files
        stations.length)).1.files
      = (stationLoop mexp render canOpen discretizationLevel stations 0
          (BatchState.init files stations.length)).1.files := by
  have h := (stationLoop_files mexp render canOpen discretizationLevel stations 0
    (BatchState.init files stations.length) hok).1
  rw [stationLoop_all_skipped mexp render canOpenAgain discretizationLevel stations 0
    (BatchState.init
      (stationLoop mexp render canOpen discretizationLevel stations 0
        (BatchState.init files stations.length)).1.files
      stations.length) h]
  exact ⟨rfl, rfl⟩

/-- Witness of C12: two stations on an empty directory, every file opening. -/
theorem stationLoop_resumable_witness :
    Branch.writeFailed ∉ (stationLoop (fun _ R => matrixExponential R 100)
      (fun _ => "0") (fun _ => true) (30 : ℚ)
      [Station.new "a" "A" 1, Station.new "b" "B" 2] 0
      (BatchState.init (fun _ => none) 2)).2 ∧
    (stationLoop (fun _ R => matrixExponential R 100) (fun _ => "0") (fun _ => true) (30 : ℚ)
      [Station.new "a" "A" 1, Station.new "b" "B" 2] 0
      (BatchState.init
        (stationLoop (fun _ R => matrixExponential R 100) (fun _ => "0") (fun _ => true)
          (30 : ℚ) [Station.new "a" "A" 1, Station.new "b" "B" 2] 0
          (BatchState.init (fun _ => none) 2)).1.files
        2)).2 = [Branch.skipped, Branch.skipped] :=
  have hok : Branch.writeFailed ∉ (stationLoop (fun _ R => matrixExponential R 100)
      (fun _ => "0") (fun _ => true) (30 : ℚ)
      [Station.new "a" "A" 1, Station.new "b" "B" 2] 0
      (BatchState.init (fun _ => none) 2)).2 := by decide
  ⟨hok, (stationLoop_resumable (fun _ R => matrixExponential R 100) (fun _ => "0")
    (fun _ => true) (fun _ => true) (30 : ℚ)
    [Station.new "a" "A" 1, Station.new "b" "B" 2] (fun _ => none) hok).1⟩

end Batch

section BatchFresh

variable {α : Type} [LinearOrderedField α] [FloorRing α]

/-- Two stations with the same checkpoint path have the same sanitized identifier. -/
theorem stationResultFile_inj (s s' : Station α)
    (h : stationResultFile s = stationResultFile s') :
    stationIdSanitized s = stationIdSanitized s' := by
  unfold stationResultFile at h
  have h2 := congrArg String.data h
  simp only [String.data_append] at h2
  exact String.ext (List.append_cancel_left (List.append_cancel_right h2))

/-- Stations with pairwise distinct sanitized identifiers have pairwise distinct
checkpoint paths. -/
theorem stationResultFile_nodup (stations : List (Station α))
    (h : (stations.map stationIdSanitized).Nodup) :
    (stations.map stationResultFile).Nodup := by
  induction stations with
  | nil => exact List.nodup_nil
  | cons s rest ih =>
    rw [List.map_cons, List.nodup_cons] at h ⊢
    refine ⟨?_, ih h.2⟩
    intro hm
    obtain ⟨s', hs', e⟩ := List.mem_map.1 hm
    exact h.1 (List.mem_map.2 ⟨s', hs', stationResultFile_inj s' s e⟩)

/-- When no checkpoint of the stations exists, their checkpoint paths are pairwise
distinct and every file opens, the station loop processes every station and assigns to
each slot from `i` on the values and the optimum of its station, leaving the slots below
`i` as they were. -/
theorem stationLoop_all_processed (mexp : MatrixFunction α) (render : α → String)
    (canOpen : String → Bool) (d : α) (hopen : ∀ path, canOpen path = true)
    (stations : List (Station α)) :
    ∀ (i : Nat) (st : BatchState α),
      (∀ s ∈ stations, st.files (stationResultFile s) = none) →
      (stations.map stationResultFile).Nodup →
      i + stations.length ≤ st.allUDFValues.length →
      i + stations.length ≤ st.optimalInventories.length →
      (stationLoop mexp render canOpen d stations i st).2
          = List.replicate stations.length Branch.processed ∧
      (stationLoop mexp render canOpen d stations i st).1.allUDFValues.length
          = st.allUDFValues.length ∧
      (stationLoop mexp render canOpen d stations i st).1.optimalInventories.length
          = st.optimalInventories.length ∧
      (∀ j : Nat, j < i →
        (stationLoop mexp render canOpen d stations i st).1.allUDFValues[j]?
            = st.allUDFValues[j]? ∧
        (stationLoop mexp render canOpen d stations i st).1.optimalInventories[j]?
            = st.optimalInventories[j]?) ∧
      (∀ (j : Nat) (hj : j < stations.length),
        (stationLoop mexp render canOpen d stations i st).1.allUDFValues[i + j]?
            = some (calculateUDFForAllInventories mexp UDFCalculator.default stations[j] d).1 ∧
        (stationLoop mexp render canOpen d stations i st).1.optimalInventories[i + j]?
            = some (findOptimalInventory
                (calculateUDFForAllInventories mexp UDFCalculator.default stations[j] d).1)) := by
  induction stations with
  | nil =>
    intro i st _ _ _ _
    refine ⟨rfl, rfl, rfl, fun j _ => ⟨rfl, rfl⟩, ?_⟩
    intro j hj
    exact absurd hj (Nat.not_lt_zero j)
  | cons station rest ih =>
    intro i st hnone hnodup hlen1 hlen2
    rw [List.map_cons, List.nodup_cons] at hnodup
    rw [List.length_cons] at hlen1 hlen2
    have hp := processStation_processed mexp render canOpen d st i station
      (hnone station (List.mem_cons_self _ _)) (hopen _)
    have hstep : stationLoop mexp render canOpen d (station :: rest) i st
        = ((stationLoop mexp render canOpen d rest (i + 1)
              (processStation mexp render canOpen d st i station).1).1,
           (processStation mexp render canOpen d st i station).2 ::
             (stationLoop mexp render canOpen d rest (i + 1)
              (processStation mexp render canOpen d st i station).1).2) := rfl
    rw [hstep, hp]
    obtain ⟨h1, h2, h3, h4, h5⟩ := ih (i + 1)
      { files := Function.update st.files (stationResultFile station)
          (some (checkpointText render
            (calculateUDFForAllInventories mexp UDFCalculator.default station d).1)),
        allUDFValues := st.allUDFValues.set i
          (calculateUDFForAllInventories mexp UDFCalculator.default station d).1,
        optimalInventories := st.optimalInventories.set i
          (findOptimalInventory
            (calculateUDFForAllInventories mexp UDFCalculator.default station d).1) }
      (by
        intro s hs
        show Function.update st.files _ _ _ = none
        have hne : stationResultFile s ≠ stationResultFile station := by
          intro e
          exact hnodup.1 (List.mem_map.2 ⟨s, hs, e⟩)
        rw [Function.update_noteq hne]
        exact hnone s (List.mem_cons_of_mem _ hs))
      hnodup.2
      (by show i + 1 + rest.length ≤ (st.allUDFValues.set i _).length
          rw [List.length_set]; omega)
      (by show i + 1 + rest.length ≤ (st.optimalInventories.set i _).length
          rw [List.length_set]; omega)
    refine ⟨?_, ?_, ?_, ?_, ?_⟩
    · show _ :: _ = _
      rw [h1]
      rfl
    · rw [h2]
      exact List.length_set _ _ _
    · rw [h3]
      exact List.length_set _ _ _
    · intro j hj
      obtain ⟨a, b⟩ := h4 j (by omega)
      rw [a, b]
      exact ⟨List.getElem?_set_ne (by omega), List.getElem?_set_ne (by omega)⟩
    · intro j hj
      cases j with
      | zero =>
        obtain ⟨a, b⟩ := h4 i (by omega)
        exact ⟨a.trans (List.getElem?_set_self (by omega)),
          b.trans (List.getElem?_set_self (by omega))⟩
      | succ j =>
        have hj2 : j < rest.length := by
          rw [List.length_cons] at hj; omega
        obtain ⟨a, b⟩ := h5 j hj2
        have e : i + (j + 1) = i + 1 + j := by omega
        rw [e]
        exact ⟨a, b⟩

/-- C13, the claim fails: the two stations with the distinct identifiers `a/b` and `a_b`
and capacity `1` have the same checkpoint path `results/intermediate/a_b.csv`; started on
an empty directory with every file opening, the loop processes the first and takes the
skip branch for the second. -/
theorem stationLoop_skips_after_collision :
    (([Station.new "a/b" "A" 1, Station.new "a_b" "B" 1] : List (Station ℚ)).map
        Station.getId).Nodup ∧
    (∀ s ∈ ([Station.new "a/b" "A" 1, Station.new "a_b" "B" 1] : List (Station ℚ)),
        0 ≤ s.getCapacity) ∧
    (stationLoop (fun _ R => matrixExponential R 100) (fun _ => "0") (fun _ => true)
        (30 : ℚ) [Station.new "a/b" "A" 1, Station.new "a_b" "B" 1] 0
        (BatchState.init (fun _ => none) 2)).2 = [Branch.processed, Branch.skipped] := by
  refine ⟨by decide, by decide, by decide⟩

/-- C13 as amended. Starting from an empty checkpoint directory, for every list of
stations whose identifiers are pairwise distinct after the replacement of `/` by `_` (the
names of their checkpoint files) and whose capacities are `≥ 0`, the station loop of
`main`, with every write succeeding, processes every station: no station takes the skip
branch, and the slot of each station in the vectors holds its `capacity + 1` UDF values
and its optimal inventory. -/
theorem stationLoop_processes_all (mexp : MatrixFunction α) (render : α → String)
    (canOpen : String → Bool) (discretizationLevel : α) (stations : List (Station α))
    (hopen : ∀ path, canOpen path = true)
    (hdist : (stations.map stationIdSanitized).Nodup)
    (hcap : ∀ s ∈ stations, 0 ≤ s.getCapacity) :
    (stationLoop mexp render canOpen discretizationLevel stations 0
        (BatchState.init (fun _ => none) stations.length)).2
      = List.replicate stations.length Branch.processed ∧
    ∀ (i : Nat) (hi : i < stations.length),
      (stationLoop mexp render canOpen discretizationLevel stations 0
          (BatchState.init (fun _ => none) stations.length)).1.allUDFValues[i]?
        = some (calculateUDFForAllInventories mexp UDFCalculator.default stations[i]
            discretizationLevel).1 ∧
      ((calculateUDFForAllInventories mexp UDFCalculator.default stations[i]
            discretizationLevel).1.length : Int) = stations[i].getCapacity + 1 ∧
      (stationLoop mexp render canOpen discretizationLevel stations 0
          (BatchState.init (fun _ => none) stations.length)).1.optimalInventories[i]?
        = some (findOptimalInventory
            (calculateUDFForAllInventories mexp UDFCalculator.default stations[i]
              discretizationLevel).1) := by
  obtain ⟨h1, -, -, -, h5⟩ := stationLoop_all_processed mexp render canOpen
    discretizationLevel hopen stations 0 (BatchState.init (fun _ => none) stations.length)
    (fun _ _ => rfl) (stationResultFile_nodup stations hdist)
    (by show 0 + stations.length ≤ (List.replicate stations.length ([] : List α)).length
        rw [List.length_replicate]; omega)
    (by show 0 + stations.length ≤ (List.replicate stations.length (0 : Int)).length
        rw [List.length_replicate]; omega)
  refine ⟨h1, ?_⟩
  intro i hi
  obtain ⟨a, b⟩ := h5 i hi
  rw [Nat.zero_add] at a b
  refine ⟨a, ?_, b⟩
  rw [calculateUDFForAllInventories_length]
  have := hcap stations[i] (List.getElem_mem _)
  omega

/-- Witness of C13 as amended: the stations `a` of capacity `1` and `b` of capacity `2`. -/
theorem stationLoop_processes_all_witness :
    ((∀ path, (fun _ : String => true) path = true) ∧
     (([Station.new "a" "A" 1, Station.new "b" "B" 2] : List (Station ℚ)).map
        stationIdSanitized).Nodup ∧
     (∀ s ∈ ([Station.new "a" "A" 1, Station.new "b" "B" 2] : List (Station ℚ)),
        0 ≤ s.getCapacity)) ∧
    (stationLoop (fun _ R => matrixExponential R 100) (fun _ => "0") (fun _ => true)
        (30 : ℚ) [Station.new "a" "A" 1, Station.new "b" "B" 2] 0
        (BatchState.init (fun _ => none) 2)).2 = [Branch.processed, Branch.processed] :=
  ⟨⟨fun _ => rfl, by decide, by decide⟩,
    (stationLoop_processes_all (fun _ R => matrixExponential R 100) (fun _ => "0")
      (fun _ => true) (30 : ℚ) [Station.new "a" "A" 1, Station.new "b" "B" 2]
      (fun _ => rfl) (by decide) (by decide)).1⟩

/-- C20, the code at the failing input: for the one station of the scenario (capacity `1`)
and a directory that already holds its checkpoint `results/intermediate/scenario.csv`, the
loop takes the skip branch and leaves the slot of the station empty with optimum `0`, and
`writeCSVResults` then reads `udfValues[0][0]` outside the empty vector. -/
theorem writeCSVResults_reads_outside_after_skip :
    (stationLoop (fun _ R => matrixExponential R 100) (fun _ => "0") (fun _ => true)
        (30 : ℚ) [scenarioStation] 0
        (BatchState.init
          (fun path => if path = "results/intermediate/scenario.csv"
            then some "inventory,udf" else none) 1)).2 = [Branch.skipped] ∧
    (stationLoop (fun _ R => matrixExponential R 100) (fun _ => "0") (fun _ => true)
        (30 : ℚ) [scenarioStation] 0
        (BatchState.init
          (fun path => if path = "results/intermediate/scenario.csv"
            then some "inventory,udf" else none) 1)).1.optimalInventories = [0] ∧
    vectorAt ([] : List ℚ) 0 = none ∧
    (mainResults (fun _ R => matrixExponential R 100) (fun _ => "0") (fun _ => true)
        (30 : ℚ) [scenarioStation]
        (fun path => if path = "results/intermediate/scenario.csv"
          then some "inventory,udf" else none)).isNone = true := by
  refine ⟨by decide, by decide, by decide, by decide⟩

end BatchFresh

end BSSUDF
